import Mathlib

/-!
Formal model of a hierarchical file/folder store with sharing-based
authorization, embedded from the tRPC router (`appRouter`) and its database
utility layer (`utils.ts` over the drizzle schema).

Records mirror the sqlite schema: users, folders and files are rows keyed by
a string id; `parentFolder` is a nullable id reference; `users` on a node is
its list of direct grants.  The database is modelled as three row lists; a
point read (`getFile`/`getFolder`/`getUser`) is a first-match lookup by id,
and a point update rewrites the rows whose id matches, exactly as the
`update ... where eq(id)` statements do.  Fallible utility calls return
`Except Code`, with `Code.INTERNAL_SERVER_ERROR` standing for the thrown
`TRPCError` of the same code.

The two recursive walks of the source (`hasFolderAccess` ancestor walk, the
`moveFolder` circular-reference walk) and the recursive subtree walk of
`shareFolder` do not structurally terminate on an arbitrary store, so they
take an explicit fuel argument; the operations instantiate the fuel with
`store.folders.length + 1`, which is proved sufficient on every acyclic
(forest-shaped) store, the only stores on which the source walks terminate
at all.
-/

namespace Drive

/-- a row of the `user` table. -/
structure UserRec where
  id : String
  files : List String := []
  folders : List String := []
deriving DecidableEq, Repr

/-- a row of the `file` table. -/
structure File where
  id : String
  name : Option String := none
  contents : Option String := none
  parentFolder : Option String := none
  users : List String := []
deriving DecidableEq, Repr

/-- a row of the `folder` table. -/
structure Folder where
  id : String
  name : Option String := none
  parentFolder : Option String := none
  files : List String := []
  folders : List String := []
  users : List String := []
deriving DecidableEq, Repr

/-- the whole database. -/
structure Store where
  users : List UserRec := []
  files : List File := []
  folders : List Folder := []
deriving DecidableEq, Repr

/-- transport error codes thrown by the router and the utility layer. -/
inductive Code where
  | NOT_FOUND
  | FORBIDDEN
  | BAD_REQUEST
  | INTERNAL_SERVER_ERROR
deriving DecidableEq, Repr

/-- utils.getUser: first row of `user` whose id matches. -/
def getUser (s : Store) (userId : String) : Option UserRec :=
  s.users.find? (fun u => u.id == userId)

/-- utils.getFile: first row of `file` whose id matches. -/
def getFile (s : Store) (fileId : String) : Option File :=
  s.files.find? (fun f => f.id == fileId)

/-- utils.getFolder: first row of `folder` whose id matches. -/
def getFolder (s : Store) (folderId : String) : Option Folder :=
  s.folders.find? (fun f => f.id == folderId)

/-- an `update ... where eq(file.id, fid)` statement: rewrite every matching row. -/
def updateFileRow (s : Store) (fid : String) (g : File → File) : Store :=
  { s with files := s.files.map (fun f => if f.id = fid then g f else f) }

/-- an `update ... where eq(folder.id, fid)` statement: rewrite every matching row. -/
def updateFolderRow (s : Store) (fid : String) (g : Folder → Folder) : Store :=
  { s with folders := s.folders.map (fun f => if f.id = fid then g f else f) }

/-- utils.setFileParentFolder: load the file (throwing if absent), then set its
`parentFolder` column. -/
def setFileParentFolder (s : Store) (fileId : String) (parentFolderId : Option String) :
    Except Code Store :=
  match getFile s fileId with
  | none => .error .INTERNAL_SERVER_ERROR
  | some _ => .ok (updateFileRow s fileId (fun f => { f with parentFolder := parentFolderId }))

/-- utils.addToFileUsers: load the file (throwing if absent), then set its `users`
column to the loaded list with `userId` appended.  No duplicate check. -/
def addToFileUsers (s : Store) (fileId userId : String) : Except Code Store :=
  match getFile s fileId with
  | none => .error .INTERNAL_SERVER_ERROR
  | some requested =>
      .ok (updateFileRow s fileId (fun f => { f with users := requested.users ++ [userId] }))

/-- utils.setFolderParentFolder. -/
def setFolderParentFolder (s : Store) (folderId : String) (parentFolderId : Option String) :
    Except Code Store :=
  match getFolder s folderId with
  | none => .error .INTERNAL_SERVER_ERROR
  | some _ => .ok (updateFolderRow s folderId (fun f => { f with parentFolder := parentFolderId }))

/-- utils.addToFolderUsers: appends without a duplicate check (`users || []` of the
source collapses a null column to the empty list, which the model's default
already is). -/
def addToFolderUsers (s : Store) (folderId userId : String) : Except Code Store :=
  match getFolder s folderId with
  | none => .error .INTERNAL_SERVER_ERROR
  | some requested =>
      .ok (updateFolderRow s folderId (fun f => { f with users := requested.users ++ [userId] }))

/-- utils.addToFolderFiles. -/
def addToFolderFiles (s : Store) (folderId fileId : String) : Except Code Store :=
  match getFolder s folderId with
  | none => .error .INTERNAL_SERVER_ERROR
  | some requested =>
      .ok (updateFolderRow s folderId (fun f => { f with files := requested.files ++ [fileId] }))

/-- utils.removeFromFolderFiles. -/
def removeFromFolderFiles (s : Store) (folderId fileId : String) : Except Code Store :=
  match getFolder s folderId with
  | none => .error .INTERNAL_SERVER_ERROR
  | some requested =>
      .ok (updateFolderRow s folderId
        (fun f => { f with files := requested.files.filter (fun i => i ≠ fileId) }))

/-- utils.addToFolderFolders. -/
def addToFolderFolders (s : Store) (parentFolderId subFolderId : String) : Except Code Store :=
  match getFolder s parentFolderId with
  | none => .error .INTERNAL_SERVER_ERROR
  | some requested =>
      .ok (updateFolderRow s parentFolderId
        (fun f => { f with folders := requested.folders ++ [subFolderId] }))

/-- utils.removeFromFolderFolders. -/
def removeFromFolderFolders (s : Store) (parentFolderId subFolderId : String) :
    Except Code Store :=
  match getFolder s parentFolderId with
  | none => .error .INTERNAL_SERVER_ERROR
  | some requested =>
      .ok (updateFolderRow s parentFolderId
        (fun f => { f with folders := requested.folders.filter (fun i => i ≠ subFolderId) }))

/-- utils.createFile: insert a new `file` row (primary-key collision is a store
error); the caller supplies the id the database would generate. -/
def dbCreateFile (s : Store) (newId : String) (name contents : Option String) :
    Except Code (Store × File) :=
  if (getFile s newId).isSome then .error .INTERNAL_SERVER_ERROR
  else
    let f : File := { id := newId, name := name, contents := contents }
    .ok ({ s with files := s.files ++ [f] }, f)

/-- utils.createFolder: insert a new `folder` row, with `parentFolder` set at
insert time as the source does. -/
def dbCreateFolder (s : Store) (newId : String) (name : Option String)
    (parentFolder : Option String) : Except Code (Store × Folder) :=
  if (getFolder s newId).isSome then .error .INTERNAL_SERVER_ERROR
  else
    let f : Folder := { id := newId, name := name, parentFolder := parentFolder }
    .ok ({ s with folders := s.folders ++ [f] }, f)

/-- utils.createUser. -/
def dbCreateUser (s : Store) (newId : String) : Except Code (Store × UserRec) :=
  if (getUser s newId).isSome then .error .INTERNAL_SERVER_ERROR
  else
    let u : UserRec := { id := newId }
    .ok ({ s with users := s.users ++ [u] }, u)

/-- hasFolderAccess of the router, with explicit fuel: direct grant on the
folder, otherwise recurse on the parent; false for a missing folder or once a
parentless folder without a matching grant is reached. -/
def hasFolderAccessFuel (s : Store) (userId : String) : Nat → String → Bool
  | 0, _ => false
  | fuel+1, folderId =>
    match getFolder s folderId with
    | none => false
    | some folder =>
      if folder.users.contains userId then true
      else
        match folder.parentFolder with
        | some p => hasFolderAccessFuel s userId fuel p
        | none => false

/-- hasFolderAccess with the fuel the development instantiates; one more unit
than the number of folder rows, enough for every terminating ancestor walk. -/
def hasFolderAccess (s : Store) (userId folderId : String) : Bool :=
  hasFolderAccessFuel s userId (s.folders.length + 1) folderId

/-- hasFileAccess of the router: direct grant on the file, otherwise delegate
to the ancestor walk on its parent folder. -/
def hasFileAccess (s : Store) (userId fileId : String) : Bool :=
  match getFile s fileId with
  | none => false
  | some file =>
    if file.users.contains userId then true
    else
      match file.parentFolder with
      | some p => hasFolderAccess s userId p
      | none => false

/-- createUser procedure (the returned row is the inserted one). -/
def createUser (s : Store) (newId : String) : Except Code (Store × UserRec) :=
  dbCreateUser s newId

/-- createFile procedure: optional parent-folder access check, row insert,
reparent bookkeeping, then the creator grant; `newId` is the id the database
generates for the row.  The returned `File` is the inserted row, read before
the parent and grant updates, as in the source. -/
def createFile (s : Store) (asUser : String) (name contents parentFolder : Option String)
    (newId : String) : Except Code (Store × File) :=
  match parentFolder with
  | some pf =>
    if hasFolderAccess s asUser pf then
      match dbCreateFile s newId name contents with
      | .error e => .error e
      | .ok (s1, f) =>
        match setFileParentFolder s1 f.id pf with
        | .error e => .error e
        | .ok s2 =>
          match addToFolderFiles s2 pf f.id with
          | .error e => .error e
          | .ok s3 =>
            match addToFileUsers s3 f.id asUser with
            | .error e => .error e
            | .ok s4 => .ok (s4, f)
    else .error .FORBIDDEN
  | none =>
    match dbCreateFile s newId name contents with
    | .error e => .error e
    | .ok (s1, f) =>
      match addToFileUsers s1 f.id asUser with
      | .error e => .error e
      | .ok s2 => .ok (s2, f)

/-- getFile procedure: the `withFileAccess` middleware (not-found, then access)
followed by returning the loaded row. -/
def getFileOp (s : Store) (asUser fileId : String) : Except Code File :=
  match getFile s fileId with
  | none => .error .NOT_FOUND
  | some f => if hasFileAccess s asUser fileId then .ok f else .error .FORBIDDEN

/-- moveFile procedure: `withFileAccess` middleware, destination access check
(null destination exempt), then reparent in source order: set the pointer,
detach from the old parent's files, attach to the new parent's files. -/
def moveFile (s : Store) (asUser fileId : String) (toFolderId : Option String) :
    Except Code Store :=
  match getFile s fileId with
  | none => .error .NOT_FOUND
  | some file =>
    if hasFileAccess s asUser fileId then
      match toFolderId with
      | some dest =>
        if hasFolderAccess s asUser dest then
          match setFileParentFolder s fileId toFolderId with
          | .error e => .error e
          | .ok s1 =>
            match file.parentFolder with
            | some oldParent =>
              (match removeFromFolderFiles s1 oldParent fileId with
               | .error e => .error e
               | .ok s2 => addToFolderFiles s2 dest fileId)
            | none => addToFolderFiles s1 dest fileId
        else .error .FORBIDDEN
      | none =>
        match setFileParentFolder s fileId toFolderId with
        | .error e => .error e
        | .ok s1 =>
          match file.parentFolder with
          | some oldParent => removeFromFolderFiles s1 oldParent fileId
          | none => .ok s1
    else .error .FORBIDDEN

/-- shareFile procedure: `withFileAccess` middleware, then a single
`addToFileUsers` append.  `toUserId` is never looked up in the `user` table. -/
def shareFile (s : Store) (asUser fileId toUserId : String) : Except Code Store :=
  match getFile s fileId with
  | none => .error .NOT_FOUND
  | some _ =>
    if hasFileAccess s asUser fileId then addToFileUsers s fileId toUserId
    else .error .FORBIDDEN

/-- createFolder procedure: optional parent access check, insert (parent set at
insert time), attach to the parent's folders list, then the creator grant. -/
def createFolder (s : Store) (asUser : String) (name parentFolder : Option String)
    (newId : String) : Except Code (Store × Folder) :=
  match parentFolder with
  | some pf =>
    if hasFolderAccess s asUser pf then
      match dbCreateFolder s newId name parentFolder with
      | .error e => .error e
      | .ok (s1, fo) =>
        match addToFolderFolders s1 pf fo.id with
        | .error e => .error e
        | .ok s2 =>
          match addToFolderUsers s2 fo.id asUser with
          | .error e => .error e
          | .ok s3 => .ok (s3, fo)
    else .error .FORBIDDEN
  | none =>
    match dbCreateFolder s newId name parentFolder with
    | .error e => .error e
    | .ok (s1, fo) =>
      match addToFolderUsers s1 fo.id asUser with
      | .error e => .error e
      | .ok s2 => .ok (s2, fo)

/-- the `while (currentFolder && currentFolder.parentFolder)` walk of the
moveFolder handler, checking whether `folderId` occurs as a parent link on the
ancestor chain of the proposed destination; fuelled, since the source loop
diverges on a parent cycle. -/
def circularCheck (s : Store) (folderId : String) : Nat → Option Folder → Bool
  | 0, _ => false
  | _+1, none => false
  | fuel+1, some c =>
    match c.parentFolder with
    | none => false
    | some p => if p = folderId then true else circularCheck s folderId fuel (getFolder s p)

/-- moveFolder procedure: `withFolderAccess` middleware, the self-move check,
the circular-reference walk, the destination access check (in that source
order), then reparent. -/
def moveFolder (s : Store) (asUser folderId : String) (toFolderId : Option String) :
    Except Code Store :=
  match getFolder s folderId with
  | none => .error .NOT_FOUND
  | some folder =>
    if hasFolderAccess s asUser folderId then
      if toFolderId = some folderId then .error .BAD_REQUEST
      else
        match toFolderId with
        | some dest =>
          if circularCheck s folderId (s.folders.length + 1) (getFolder s dest) then
            .error .BAD_REQUEST
          else if hasFolderAccess s asUser dest then
            match setFolderParentFolder s folderId toFolderId with
            | .error e => .error e
            | .ok s1 =>
              match folder.parentFolder with
              | some oldParent =>
                (match removeFromFolderFolders s1 oldParent folderId with
                 | .error e => .error e
                 | .ok s2 => addToFolderFolders s2 dest folderId)
              | none => addToFolderFolders s1 dest folderId
          else .error .FORBIDDEN
        | none =>
          match setFolderParentFolder s folderId toFolderId with
          | .error e => .error e
          | .ok s1 =>
            match folder.parentFolder with
            | some oldParent => removeFromFolderFolders s1 oldParent folderId
            | none => .ok s1
    else .error .FORBIDDEN

/-- the `for (const fileId of folder.files)` loop of shareRecursively. -/
def addFilesUsers (toUserId : String) : Store → List String → Except Code Store
  | s, [] => .ok s
  | s, fid :: rest =>
    match addToFileUsers s fid toUserId with
    | .error e => .error e
    | .ok s1 => addFilesUsers toUserId s1 rest

/-- the `for (const subFolderId of folder.folders)` loop of shareRecursively,
generic in the body of one iteration; an error stops the loop. -/
def shareRecList (step : Store → String → Except Code Store) :
    Store → List String → Except Code Store
  | s, [] => .ok s
  | s, sub :: rest =>
    match step s sub with
    | .error e => .error e
    | .ok s1 => shareRecList step s1 rest

/-- shareRecursively of the shareFolder handler: grant on the folder, re-read
it, grant on each listed file, then recurse into each listed subfolder;
fuelled, since the source recursion diverges on a cyclic child graph. -/
def shareRec (toUserId : String) : Nat → Store → String → Except Code Store
  | 0, _, _ => .error .INTERNAL_SERVER_ERROR
  | fuel+1, s, folderId =>
    match addToFolderUsers s folderId toUserId with
    | .error e => .error e
    | .ok s1 =>
      match getFolder s1 folderId with
      | none => .ok s1
      | some folder =>
        match addFilesUsers toUserId s1 folder.files with
        | .error e => .error e
        | .ok s2 =>
          shareRecList (fun st sub => shareRec toUserId fuel st sub) s2 folder.folders

/-- shareFolder procedure: `withFolderAccess` middleware, then the recursive
subtree walk. -/
def shareFolder (s : Store) (asUser folderId toUserId : String) : Except Code Store :=
  match getFolder s folderId with
  | none => .error .NOT_FOUND
  | some _ =>
    if hasFolderAccess s asUser folderId then
      shareRec toUserId (s.folders.length + 1) s folderId
    else .error .FORBIDDEN

/-- one upward step of the ancestor walk: the parent link of the folder row at `x`. -/
def chainStep (s : Store) (x : String) : Option String :=
  (getFolder s x).bind (fun f => f.parentFolder)

/-- iterated ancestor steps; position 0 is the start id itself. -/
def iterP (s : Store) : Nat → String → Option String
  | 0, x => some x
  | n+1, x =>
    match chainStep s x with
    | none => none
    | some p => iterP s n p

/-- whether the upward parent walk from `x` reaches, within the given fuel, a
missing row or a parentless folder. -/
def rootedFuel (s : Store) : Nat → String → Bool
  | 0, _ => false
  | fuel+1, x =>
    match getFolder s x with
    | none => true
    | some f =>
      match f.parentFolder with
      | none => true
      | some p => rootedFuel s fuel p

/-- executable rootedness check over the rows of the store. -/
def rootedStore (s : Store) : Bool :=
  s.folders.all (fun f => rootedFuel s (s.folders.length + 1) f.id)

/-- every ancestor walk terminates within one unit more fuel than there are
folder rows. -/
def Rooted (s : Store) : Prop :=
  ∀ x, rootedFuel s (s.folders.length + 1) x = true

/-- the one-step parent relation between folder ids. -/
def parentRel (s : Store) (x y : String) : Prop :=
  chainStep s x = some y

/-- no folder is its own strict descendant through parent links. -/
def Acyclic (s : Store) : Prop :=
  ∀ x, ¬ Relation.TransGen (parentRel s) x x

/-- the parent link of the folder row at `x`, when the row is present. -/
def folderParentOf (s : Store) (x : String) : Option (Option String) :=
  (getFolder s x).map (fun f => f.parentFolder)

/-- every parent link of a visible folder names a stored folder. -/
def ClosedParents (s : Store) : Prop :=
  ∀ x p, folderParentOf s x = some (some p) → (getFolder s p).isSome = true

/-- executable form of `ClosedParents`. -/
def closedParentsB (s : Store) : Bool :=
  s.folders.all (fun f =>
    match f.parentFolder with
    | none => true
    | some p => (getFolder s p).isSome)

/-- the direct-grant list of the folder at `x` (empty when absent). -/
def folderUsersOf (s : Store) (x : String) : List String :=
  ((getFolder s x).map Folder.users).getD []

/-- the direct-grant list of the file at `x` (empty when absent). -/
def fileUsersOf (s : Store) (x : String) : List String :=
  ((getFile s x).map File.users).getD []

/-- structural view of a folder row: parent link and both child lists. -/
def folderShapeOf (s : Store) (x : String) : Option (Option String × List String × List String) :=
  (getFolder s x).map (fun f => (f.parentFolder, f.files, f.folders))

/-- structural view of a file row: its parent link. -/
def fileShapeOf (s : Store) (x : String) : Option (Option String) :=
  (getFile s x).map (fun f => f.parentFolder)

/-- the part of a folder row the ancestor walk reads: grants and parent link. -/
def folderAccViewOf (s : Store) (x : String) : Option (List String × Option String) :=
  (getFolder s x).map (fun f => (f.users, f.parentFolder))

/-- a direct grant for `u` on the folder at `x`. -/
def grantAt (s : Store) (u x : String) : Prop :=
  ∃ f, getFolder s x = some f ∧ f.users.contains u = true

/-- a direct grant for `u` somewhere on the ancestor chain starting at `x`. -/
def GrantOnChain (s : Store) (u x : String) : Prop :=
  ∃ j y, iterP s j x = some y ∧ grantAt s u y

/-- the folder at `fid` lies in the subtree of the folder at `root`, following
the `folders` child lists. -/
inductive FolderUnder (s : Store) : String → String → Prop
  | refl (x : String) : FolderUnder s x x
  | step {root c fid : String} (f : Folder) : getFolder s root = some f → c ∈ f.folders →
      FolderUnder s c fid → FolderUnder s root fid

/-- the file at `fid` lies in the subtree of the folder at `root`, following the
`folders` child lists and ending through a `files` child list. -/
inductive FileUnder (s : Store) : String → String → Prop
  | here {root c : String} (f : Folder) : getFolder s root = some f → c ∈ f.files →
      FileUnder s root c
  | step {root c fid : String} (f : Folder) : getFolder s root = some f → c ∈ f.folders →
      FileUnder s c fid → FileUnder s root fid

/-- a request against the router, with the ids the database would generate for
inserted rows made explicit. -/
inductive Op where
  | createUser (newId : String)
  | createFile (asUser : String) (name contents parentFolder : Option String) (newId : String)
  | getFile (asUser fileId : String)
  | moveFile (asUser fileId : String) (toFolderId : Option String)
  | shareFile (asUser fileId toUserId : String)
  | createFolder (asUser : String) (name parentFolder : Option String) (newId : String)
  | moveFolder (asUser folderId : String) (toFolderId : Option String)
  | shareFolder (asUser folderId toUserId : String)

/-- the store transition of a single request. -/
def applyOp (s : Store) : Op → Except Code Store
  | .createUser newId => (createUser s newId).map Prod.fst
  | .createFile a n c pf newId => (createFile s a n c pf newId).map Prod.fst
  | .getFile a fid => (getFileOp s a fid).map (fun _ => s)
  | .moveFile a fid dest => moveFile s a fid dest
  | .shareFile a fid tu => shareFile s a fid tu
  | .createFolder a n pf newId => (createFolder s a n pf newId).map Prod.fst
  | .moveFolder a fid dest => moveFolder s a fid dest
  | .shareFolder a fid tu => shareFolder s a fid tu

/-- a sequence of requests, stopping at the first error. -/
def applyOps : Store → List Op → Except Code Store
  | s, [] => .ok s
  | s, op :: rest =>
    match applyOp s op with
    | .error e => .error e
    | .ok s1 => applyOps s1 rest

/-! Lookup lemmas for row updates and inserts. -/

theorem find?_update_row {α : Type} (idOf : α → String) (l : List α) (tid x : String)
    (g : α → α) (hg : ∀ a, idOf (g a) = idOf a) :
    (l.map (fun a => if idOf a = tid then g a else a)).find? (fun a => idOf a == x)
      = if x = tid then (l.find? (fun a => idOf a == x)).map g
        else l.find? (fun a => idOf a == x) := by
  induction l with
  | nil => simp
  | cons h t ih =>
    simp only [List.map_cons]
    by_cases hx : idOf h = x
    · by_cases htid : idOf h = tid
      · have hxt : x = tid := hx ▸ htid
        simp only [if_pos htid]
        rw [List.find?_cons_of_pos _ (by simp [hg, hx]),
          List.find?_cons_of_pos _ (by simp [hx]), if_pos hxt]
        rfl
      · have hxt : ¬ x = tid := fun hc => htid (hc ▸ hx)
        simp only [if_neg htid]
        rw [List.find?_cons_of_pos _ (by simp [hx]),
          List.find?_cons_of_pos _ (by simp [hx]), if_neg hxt]
    · by_cases htid : idOf h = tid
      · simp only [if_pos htid]
        rw [List.find?_cons_of_neg _ (by simp [hg, hx]),
          List.find?_cons_of_neg _ (by simp [hx]), ih]
      · simp only [if_neg htid]
        rw [List.find?_cons_of_neg _ (by simp [hx]),
          List.find?_cons_of_neg _ (by simp [hx]), ih]

theorem getFolder_updateFolderRow (s : Store) (tid : String) (g : Folder → Folder)
    (hg : ∀ f, (g f).id = f.id) (x : String) :
    getFolder (updateFolderRow s tid g) x
      = if x = tid then (getFolder s x).map g else getFolder s x :=
  find?_update_row Folder.id s.folders tid x g hg

theorem getFile_updateFileRow (s : Store) (tid : String) (g : File → File)
    (hg : ∀ f, (g f).id = f.id) (x : String) :
    getFile (updateFileRow s tid g) x
      = if x = tid then (getFile s x).map g else getFile s x :=
  find?_update_row File.id s.files tid x g hg

theorem getFile_updateFolderRow (s : Store) (tid : String) (g : Folder → Folder) (x : String) :
    getFile (updateFolderRow s tid g) x = getFile s x := rfl

theorem getFolder_updateFileRow (s : Store) (tid : String) (g : File → File) (x : String) :
    getFolder (updateFileRow s tid g) x = getFolder s x := rfl

theorem folders_updateFolderRow_length (s : Store) (tid : String) (g : Folder → Folder) :
    (updateFolderRow s tid g).folders.length = s.folders.length := by
  simp [updateFolderRow]

theorem folders_updateFileRow (s : Store) (tid : String) (g : File → File) :
    (updateFileRow s tid g).folders = s.folders := rfl

theorem getFolder_insert (s : Store) (fo : Folder) (x : String) :
    getFolder { s with folders := s.folders ++ [fo] } x
      = (getFolder s x).or (if fo.id = x then some fo else none) := by
  simp only [getFolder, List.find?_append]
  by_cases h : fo.id = x
  · simp [List.find?, h]
  · have hb : (fo.id == x) = false := beq_eq_false_iff_ne.mpr h
    simp [List.find?, h, hb]

theorem getFile_insert (s : Store) (f : File) (x : String) :
    getFile { s with files := s.files ++ [f] } x
      = (getFile s x).or (if f.id = x then some f else none) := by
  simp only [getFile, List.find?_append]
  by_cases h : f.id = x
  · simp [List.find?, h]
  · have hb : (f.id == x) = false := beq_eq_false_iff_ne.mpr h
    simp [List.find?, h, hb]

theorem getFolder_insertFile (s : Store) (f : File) (x : String) :
    getFolder { s with files := s.files ++ [f] } x = getFolder s x := rfl

theorem getFile_insertFolder (s : Store) (fo : Folder) (x : String) :
    getFile { s with folders := s.folders ++ [fo] } x = getFile s x := rfl

theorem getFolder_insertUser (s : Store) (u : UserRec) (x : String) :
    getFolder { s with users := s.users ++ [u] } x = getFolder s x := rfl

theorem getFile_insertUser (s : Store) (u : UserRec) (x : String) :
    getFile { s with users := s.users ++ [u] } x = getFile s x := rfl

/-! Basic facts about lookups and the ancestor chain. -/

theorem getFolder_mem {s : Store} {x : String} {f : Folder} (h : getFolder s x = some f) :
    f ∈ s.folders ∧ f.id = x := by
  refine ⟨List.mem_of_find?_eq_some h, ?_⟩
  have := List.find?_some h
  exact beq_iff_eq.mp this

theorem chainStep_eq_join (s : Store) (x : String) :
    chainStep s x = (folderParentOf s x).join := by
  cases h : getFolder s x <;> simp [chainStep, folderParentOf, h]

theorem folderParentOf_of_accView {s s' : Store} {x : String}
    (h : folderAccViewOf s' x = folderAccViewOf s x) :
    folderParentOf s' x = folderParentOf s x := by
  have : ∀ t : Store, folderParentOf t x = (folderAccViewOf t x).map Prod.snd := by
    intro t; cases ht : getFolder t x <;> simp [folderParentOf, folderAccViewOf, ht]
  rw [this, this, h]

theorem chainStep_congr {s s' : Store}
    (h : ∀ x, folderParentOf s' x = folderParentOf s x) (x : String) :
    chainStep s' x = chainStep s x := by
  rw [chainStep_eq_join, chainStep_eq_join, h]

theorem rootedFuel_congr {s s' : Store}
    (h : ∀ x, folderParentOf s' x = folderParentOf s x) :
    ∀ fuel x, rootedFuel s' fuel x = rootedFuel s fuel x := by
  intro fuel
  induction fuel with
  | zero => intro x; rfl
  | succ n ih =>
    intro x
    have hx := h x
    simp only [folderParentOf] at hx
    cases hs : getFolder s x with
    | none =>
      have hs' : getFolder s' x = none := by
        rw [hs] at hx; simpa using hx
      simp [rootedFuel, hs, hs']
    | some f =>
      cases hs' : getFolder s' x with
      | none => rw [hs, hs'] at hx; simp at hx
      | some f' =>
        rw [hs, hs'] at hx
        simp only [Option.map_some'] at hx
        have hp : f'.parentFolder = f.parentFolder := by simpa using hx
        simp only [rootedFuel, hs, hs', hp]
        cases f.parentFolder with
        | none => rfl
        | some p => exact ih p

theorem iterP_congr {s s' : Store}
    (h : ∀ x, folderParentOf s' x = folderParentOf s x) :
    ∀ n x, iterP s' n x = iterP s n x := by
  intro n
  induction n with
  | zero => intro x; rfl
  | succ n ih =>
    intro x
    simp only [iterP, chainStep_congr h]
    cases chainStep s x with
    | none => rfl
    | some p => exact ih p

theorem hasFolderAccessFuel_congr {s s' : Store}
    (hview : ∀ x, folderAccViewOf s' x = folderAccViewOf s x) (u : String) :
    ∀ fuel x, hasFolderAccessFuel s' u fuel x = hasFolderAccessFuel s u fuel x := by
  intro fuel
  induction fuel with
  | zero => intro x; rfl
  | succ n ih =>
    intro x
    have hx := hview x
    simp only [folderAccViewOf] at hx
    cases hs : getFolder s x with
    | none =>
      have hs' : getFolder s' x = none := by
        rw [hs] at hx; simpa using hx
      simp [hasFolderAccessFuel, hs, hs']
    | some f =>
      cases hs' : getFolder s' x with
      | none => rw [hs, hs'] at hx; simp at hx
      | some f' =>
        rw [hs, hs'] at hx
        simp only [Option.map_some'] at hx
        have hu : f'.users = f.users := by
          have := congrArg (fun o => o.map Prod.fst) hx
          simpa using this
        have hp : f'.parentFolder = f.parentFolder := by
          have := congrArg (fun o => o.map Prod.snd) hx
          simpa using this
        simp only [hasFolderAccessFuel, hs, hs', hu, hp]
        cases f.parentFolder with
        | none => rfl
        | some p => simp only [ih p]

theorem hasFolderAccess_congr {s s' : Store}
    (hlen : s'.folders.length = s.folders.length)
    (hview : ∀ x, folderAccViewOf s' x = folderAccViewOf s x) (u x : String) :
    hasFolderAccess s' u x = hasFolderAccess s u x := by
  unfold hasFolderAccess
  rw [hlen, hasFolderAccessFuel_congr hview]

theorem iterP_succ (s : Store) (n : Nat) (x : String) :
    iterP s (n + 1) x
      = match chainStep s x with
        | none => none
        | some p => iterP s n p := rfl

theorem iterP_succ_right (s : Store) :
    ∀ n x, iterP s (n + 1) x = (iterP s n x).bind (chainStep s) := by
  intro n
  induction n with
  | zero =>
    intro x
    rw [iterP_succ]
    cases hc : chainStep s x <;> simp [iterP, hc]
  | succ n ih =>
    intro x
    cases hc : chainStep s x with
    | none =>
      have h1 : iterP s (n + 1 + 1) x = none := by rw [iterP_succ, hc]
      have h2 : iterP s (n + 1) x = none := by rw [iterP_succ, hc]
      rw [h1, h2]
      rfl
    | some p =>
      have h1 : iterP s (n + 1 + 1) x = iterP s (n + 1) p := by rw [iterP_succ, hc]
      have h2 : iterP s (n + 1) x = iterP s n p := by rw [iterP_succ, hc]
      rw [h1, h2, ih p]

theorem iterP_isSome_mono {s : Store} {n : Nat} {x : String}
    (h : (iterP s (n + 1) x).isSome) : (iterP s n x).isSome := by
  rw [iterP_succ_right] at h
  cases hi : iterP s n x with
  | none => rw [hi] at h; simp at h
  | some y => simp

theorem iterP_add (s : Store) :
    ∀ a b x, iterP s (a + b) x = (iterP s a x).bind (iterP s b) := by
  intro a
  induction a with
  | zero => intro b x; simp [iterP, Nat.zero_add]
  | succ a ih =>
    intro b x
    have hab : a + 1 + b = (a + b) + 1 := by omega
    cases hc : chainStep s x with
    | none =>
      have h1 : iterP s (a + 1 + b) x = none := by rw [hab, iterP_succ, hc]
      have h2 : iterP s (a + 1) x = none := by rw [iterP_succ, hc]
      rw [h1, h2]
      rfl
    | some p =>
      have h1 : iterP s (a + 1 + b) x = iterP s (a + b) p := by rw [hab, iterP_succ, hc]
      have h2 : iterP s (a + 1) x = iterP s a p := by rw [iterP_succ, hc]
      rw [h1, ih, h2]

theorem rootedFuel_false_iff (s : Store) :
    ∀ fuel x, rootedFuel s fuel x = false ↔ (iterP s fuel x).isSome := by
  intro fuel
  induction fuel with
  | zero => intro x; simp [rootedFuel, iterP]
  | succ n ih =>
    intro x
    constructor
    · intro h
      cases hs : getFolder s x with
      | none => simp [rootedFuel, hs] at h
      | some f =>
        cases hp : f.parentFolder with
        | none => simp [rootedFuel, hs, hp] at h
        | some p =>
          have hc : chainStep s x = some p := by simp [chainStep, hs, hp]
          have h2 : rootedFuel s n p = false := by
            simpa [rootedFuel, hs, hp] using h
          have h3 := (ih p).mp h2
          rw [iterP_succ, hc]
          exact h3
    · intro h
      cases hc : chainStep s x with
      | none => rw [iterP_succ, hc] at h; simp at h
      | some p =>
        rw [iterP_succ, hc] at h
        have h3 := (ih p).mpr h
        obtain ⟨f, hf, hp⟩ : ∃ f, getFolder s x = some f ∧ f.parentFolder = some p := by
          cases hg : getFolder s x with
          | none => simp [chainStep, hg] at hc
          | some f => exact ⟨f, rfl, by simpa [chainStep, hg] using hc⟩
        simp [rootedFuel, hf, hp, h3]

theorem transGen_to_iter {s : Store} {x y : String}
    (h : Relation.TransGen (parentRel s) x y) : ∃ n, iterP s (n + 1) x = some y := by
  induction h with
  | single hr =>
    refine ⟨0, ?_⟩
    have hc : chainStep s x = some _ := hr
    rw [iterP_succ, hc]
    rfl
  | tail _ hr ih =>
    obtain ⟨n, hn⟩ := ih
    refine ⟨n + 1, ?_⟩
    rw [iterP_succ_right, hn]
    exact hr

theorem iter_to_reflTrans {s : Store} :
    ∀ {n : Nat} {x y : String}, iterP s n x = some y →
      Relation.ReflTransGen (parentRel s) x y := by
  intro n
  induction n with
  | zero =>
    intro x y h
    cases h
    exact Relation.ReflTransGen.refl
  | succ n ih =>
    intro x y h
    cases hc : chainStep s x with
    | none => rw [iterP_succ, hc] at h; exact absurd h (by simp)
    | some p =>
      rw [iterP_succ, hc] at h
      exact Relation.ReflTransGen.head hc (ih h)

theorem iter_to_transGen {s : Store} {n : Nat} {x y : String}
    (h : iterP s (n + 1) x = some y) : Relation.TransGen (parentRel s) x y := by
  cases hc : chainStep s x with
  | none => rw [iterP_succ, hc] at h; exact absurd h (by simp)
  | some p =>
    rw [iterP_succ, hc] at h
    exact Relation.TransGen.head' hc (iter_to_reflTrans h)

theorem iter_cycle_not_rooted (s : Store) :
    ∀ fuel x m, iterP s (m + 1) x = some x → rootedFuel s fuel x = false := by
  intro fuel
  induction fuel with
  | zero => intro x m _; rfl
  | succ n ih =>
    intro x m h
    cases hc : chainStep s x with
    | none => rw [iterP_succ, hc] at h; exact absurd h (by simp)
    | some p =>
      rw [iterP_succ, hc] at h
      have h2 : iterP s m p = some x := h
      have h3 : iterP s (m + 1) p = some p := by
        rw [iterP_succ_right, h2]
        exact hc
      obtain ⟨f, hf, hp⟩ : ∃ f, getFolder s x = some f ∧ f.parentFolder = some p := by
        cases hg : getFolder s x with
        | none => simp [chainStep, hg] at hc
        | some f => exact ⟨f, rfl, by simpa [chainStep, hg] using hc⟩
      simp [rootedFuel, hf, hp, ih p m h3]

theorem rooted_acyclic {s : Store} (h : Rooted s) : Acyclic s := by
  intro x hcyc
  obtain ⟨m, hm⟩ := transGen_to_iter hcyc
  have hfalse := iter_cycle_not_rooted s (s.folders.length + 1) x m hm
  rw [h x] at hfalse
  exact absurd hfalse (by simp)

theorem not_rooted_cycle (s : Store) (x : String)
    (h : rootedFuel s (s.folders.length + 1) x = false) :
    ∃ y, Relation.TransGen (parentRel s) y y := by
  classical
  set n := s.folders.length with hn
  have hiter : (iterP s (n + 1) x).isSome := (rootedFuel_false_iff s (n + 1) x).mp h
  have hall : ∀ j : Nat, j ≤ n + 1 → (iterP s j x).isSome := by
    intro j hj
    obtain ⟨k, hk⟩ : ∃ k, n + 1 = j + k := ⟨n + 1 - j, by omega⟩
    rw [hk, iterP_add] at hiter
    cases hij : iterP s j x with
    | none => rw [hij] at hiter; simp at hiter
    | some y => simp
  have hget : ∀ j : Nat, j ≤ n → ∃ y f, iterP s j x = some y ∧ getFolder s y = some f := by
    intro j hj
    obtain ⟨y, hy⟩ := Option.isSome_iff_exists.mp (hall j (by omega))
    have hnext : (iterP s (j + 1) x).isSome := hall (j + 1) (by omega)
    rw [iterP_succ_right, hy] at hnext
    have hstep : (chainStep s y).isSome := by simpa using hnext
    cases hg : getFolder s y with
    | none => rw [chainStep, hg] at hstep; simp at hstep
    | some f => exact ⟨y, f, hy, hg⟩
  let F : Fin (n + 1) → String := fun j => ((iterP s j.val x).getD x)
  have hmaps : ∀ j : Fin (n + 1), F j ∈ (s.folders.map Folder.id).toFinset := by
    intro j
    obtain ⟨y, f, hy, hf⟩ := hget j.val (by omega)
    have hyF : F j = y := by simp [F, hy]
    rw [hyF]
    obtain ⟨hmem, hid⟩ := getFolder_mem hf
    rw [List.mem_toFinset, List.mem_map]
    exact ⟨f, hmem, hid⟩
  have hcard : ((s.folders.map Folder.id).toFinset).card
      < (Finset.univ : Finset (Fin (n + 1))).card := by
    have h1 := List.toFinset_card_le (s.folders.map Folder.id)
    have h2 : (s.folders.map Folder.id).length = n := by simp [hn]
    simp only [Finset.card_univ, Fintype.card_fin]
    omega
  obtain ⟨i, hi, j, hj, hij, heq⟩ :=
    Finset.exists_ne_map_eq_of_card_lt_of_maps_to hcard (fun a _ => hmaps a)
  have key : ∀ i j : Fin (n + 1), i.val < j.val → F i = F j →
      ∃ y, Relation.TransGen (parentRel s) y y := by
    intro i j hlt heq2
    obtain ⟨y, hy⟩ := Option.isSome_iff_exists.mp (hall i.val (by omega))
    obtain ⟨z, hz⟩ := Option.isSome_iff_exists.mp (hall j.val (by omega))
    have hyz : y = z := by
      have ha : F i = y := by simp [F, hy]
      have hb : F j = z := by simp [F, hz]
      rw [ha, hb] at heq2
      exact heq2
    subst hyz
    obtain ⟨k, hk⟩ : ∃ k, j.val = i.val + (k + 1) := ⟨j.val - i.val - 1, by omega⟩
    rw [hk, iterP_add, hy] at hz
    exact ⟨y, iter_to_transGen hz⟩
  rcases Nat.lt_or_ge i.val j.val with hlt | hge
  · exact key i j hlt heq
  · have hne : i.val ≠ j.val := fun hc => hij (Fin.ext hc)
    exact key j i (by omega) heq.symm

theorem acyclic_rooted {s : Store} (h : Acyclic s) : Rooted s := by
  intro x
  by_contra hx
  have hx2 : rootedFuel s (s.folders.length + 1) x = false := by
    cases hb : rootedFuel s (s.folders.length + 1) x with
    | true => exact absurd hb hx
    | false => rfl
  obtain ⟨y, hy⟩ := not_rooted_cycle s x hx2
  exact h y hy

theorem rooted_of_rootedStore {s : Store} (h : rootedStore s = true) : Rooted s := by
  intro x
  cases hx : getFolder s x with
  | none => simp [rootedFuel, hx]
  | some f =>
    obtain ⟨hmem, hid⟩ := getFolder_mem hx
    have := (List.all_eq_true.mp h) f hmem
    rwa [hid] at this

theorem acyclic_of_rootedStore {s : Store} (h : rootedStore s = true) : Acyclic s :=
  rooted_acyclic (rooted_of_rootedStore h)

/-! Characterization of the access walk as a grant on the ancestor chain. -/

theorem chainStep_some {s : Store} {x p : String} (hc : chainStep s x = some p) :
    ∃ f, getFolder s x = some f ∧ f.parentFolder = some p := by
  cases hg : getFolder s x with
  | none => simp [chainStep, hg] at hc
  | some f => exact ⟨f, rfl, by simpa [chainStep, hg] using hc⟩

theorem grantOnChain_decomp (s : Store) (u x : String) :
    GrantOnChain s u x
      ↔ ∃ f, getFolder s x = some f ∧
          (f.users.contains u = true ∨ ∃ p, f.parentFolder = some p ∧ GrantOnChain s u p) := by
  constructor
  · rintro ⟨j, y, hj, hy⟩
    cases j with
    | zero =>
      have hxy : x = y := by simpa [iterP] using hj
      subst hxy
      obtain ⟨f, hf, hc⟩ := hy
      exact ⟨f, hf, Or.inl hc⟩
    | succ j =>
      cases hc : chainStep s x with
      | none => rw [iterP_succ, hc] at hj; exact absurd hj (by simp)
      | some p =>
        rw [iterP_succ, hc] at hj
        obtain ⟨f, hf, hp⟩ := chainStep_some hc
        exact ⟨f, hf, Or.inr ⟨p, hp, ⟨j, y, hj, hy⟩⟩⟩
  · rintro ⟨f, hf, h | ⟨p, hp, j, y, hj, hy⟩⟩
    · exact ⟨0, x, rfl, f, hf, h⟩
    · have hc : chainStep s x = some p := by simp [chainStep, hf, hp]
      refine ⟨j + 1, y, ?_, hy⟩
      rw [iterP_succ, hc]
      exact hj

theorem hasFolderAccessFuel_iff_grant (s : Store) (u : String) :
    ∀ fuel x, rootedFuel s fuel x = true →
      (hasFolderAccessFuel s u fuel x = true ↔ GrantOnChain s u x) := by
  intro fuel
  induction fuel with
  | zero => intro x h; exact absurd h (by simp [rootedFuel])
  | succ n ih =>
    intro x h
    rw [grantOnChain_decomp]
    cases hs : getFolder s x with
    | none => simp [hasFolderAccessFuel, hs]
    | some f =>
      cases hcont : f.users.contains u with
      | true =>
        simp only [hasFolderAccessFuel, hs, hcont, if_true]
        constructor
        · intro _; exact ⟨f, rfl, Or.inl hcont⟩
        · intro _; trivial
      | false =>
        cases hp : f.parentFolder with
        | none => simp [hasFolderAccessFuel, hs, hcont, hp]
        | some p =>
          have hroot : rootedFuel s n p = true := by
            simpa [rootedFuel, hs, hp] using h
          simp only [hasFolderAccessFuel, hs, hcont, hp, Bool.false_eq_true, if_false]
          rw [ih p hroot]
          constructor
          · intro hg; exact ⟨f, rfl, Or.inr ⟨p, hp, hg⟩⟩
          · rintro ⟨f', hf', hmem | ⟨p', hp', hg⟩⟩
            · injection hf' with hff
              subst hff
              rw [hmem] at hcont
              cases hcont
            · injection hf' with hff
              subst hff
              rw [hp] at hp'
              injection hp' with hpp
              subst hpp
              exact hg

theorem hasFolderAccess_iff_grant {s : Store} (hr : Rooted s) (u x : String) :
    hasFolderAccess s u x = true ↔ GrantOnChain s u x :=
  hasFolderAccessFuel_iff_grant s u (s.folders.length + 1) x (hr x)

theorem hasFileAccess_eq (s : Store) (u x : String) :
    hasFileAccess s u x = true
      ↔ ∃ f, getFile s x = some f ∧
          (f.users.contains u = true ∨
            ∃ p, f.parentFolder = some p ∧ hasFolderAccess s u p = true) := by
  cases hs : getFile s x with
  | none => simp [hasFileAccess, hs]
  | some f =>
    cases hcont : f.users.contains u with
    | true =>
      simp only [hasFileAccess, hs, hcont, if_true]
      constructor
      · intro _; exact ⟨f, rfl, Or.inl hcont⟩
      · intro _; trivial
    | false =>
      cases hp : f.parentFolder with
      | none => simp [hasFileAccess, hs, hcont, hp]
      | some p =>
        simp only [hasFileAccess, hs, hcont, hp, Bool.false_eq_true, if_false]
        constructor
        · intro hacc; exact ⟨f, rfl, Or.inr ⟨p, hp, hacc⟩⟩
        · rintro ⟨f', hf', hmem | ⟨p', hp', hacc⟩⟩
          · injection hf' with hff
            subst hff
            rw [hmem] at hcont
            cases hcont
          · injection hf' with hff
            subst hff
            rw [hp] at hp'
            injection hp' with hpp
            subst hpp
            exact hacc

/-! Claim C1: recursive characterization of the access checks. -/

/-- C1: for every user U and node N in the store, the access check returns true
iff U is in N's direct-grant users array, or N has a parent folder P and the
check returns true for U on P; it returns false for an absent node, and false
once a node with no parent and no matching grant is reached (the acyclicity
hypothesis is the tree-shape invariant under which the source recursion
terminates). -/
theorem C1_access_characterization (s : Store) (hA : Acyclic s) (u n : String) :
    (hasFileAccess s u n = true
      ↔ ∃ f, getFile s n = some f ∧
          (u ∈ f.users ∨ ∃ p, f.parentFolder = some p ∧ hasFolderAccess s u p = true))
    ∧ (hasFolderAccess s u n = true
      ↔ ∃ fo, getFolder s n = some fo ∧
          (u ∈ fo.users ∨ ∃ p, fo.parentFolder = some p ∧ hasFolderAccess s u p = true)) := by
  have hr : Rooted s := acyclic_rooted hA
  constructor
  · rw [hasFileAccess_eq]
    constructor
    · rintro ⟨f, hf, hc | hrest⟩
      · exact ⟨f, hf, Or.inl (by simpa using hc)⟩
      · exact ⟨f, hf, Or.inr hrest⟩
    · rintro ⟨f, hf, hc | hrest⟩
      · exact ⟨f, hf, Or.inl (by simpa using hc)⟩
      · exact ⟨f, hf, Or.inr hrest⟩
  · rw [hasFolderAccess_iff_grant hr, grantOnChain_decomp]
    constructor
    · rintro ⟨f, hf, hc | ⟨p, hp, hg⟩⟩
      · exact ⟨f, hf, Or.inl (by simpa using hc)⟩
      · exact ⟨f, hf, Or.inr ⟨p, hp, (hasFolderAccess_iff_grant hr u p).mpr hg⟩⟩
    · rintro ⟨f, hf, hc | ⟨p, hp, hacc⟩⟩
      · exact ⟨f, hf, Or.inl (by simpa using hc)⟩
      · exact ⟨f, hf, Or.inr ⟨p, hp, (hasFolderAccess_iff_grant hr u p).mp hacc⟩⟩

/-- a small concrete store: root folder d1 granted to alice, child folder d2,
and a file x1 inside d2. -/
def sampleStoreA : Store :=
  { files := [{ id := "x1", parentFolder := some "d2" }],
    folders := [{ id := "d1", users := ["alice"] },
                { id := "d2", parentFolder := some "d1" }] }

theorem C1_access_characterization_witness :
    Acyclic sampleStoreA ∧
      (∃ fo, getFolder sampleStoreA "d2" = some fo ∧
        ("alice" ∈ fo.users ∨
          ∃ p, fo.parentFolder = some p ∧ hasFolderAccess sampleStoreA "alice" p = true)) :=
  have hA : Acyclic sampleStoreA := acyclic_of_rootedStore (by rfl)
  ⟨hA, ((C1_access_characterization sampleStoreA hA "alice" "d2").2).mp (by rfl)⟩

/-! Claim C2: sharing a file twice appends a duplicate grant entry. -/

/-- a single shared file owned by user a. -/
def sampleStoreB : Store :=
  { files := [{ id := "f1", users := ["a"] }] }

/-- C2 counterexample: sharing file f1 with user b twice succeeds both times,
but the resulting users array is a, b, b — the grant entry for b appears
twice, not exactly once, so the duplicate insert is not a no-op. -/
theorem C2_counterexample :
    ((shareFile sampleStoreB "a" "f1" "b").bind
        (fun t => shareFile t "a" "f1" "b")).map (fun t => fileUsersOf t "f1")
      = .ok ["a", "b", "b"]
    ∧ (["a", "b", "b"] : List String).count "b" ≠ 1 := by
  constructor
  · rfl
  · decide

theorem shareFile_ok_elim {s s' : Store} {asUser fileId toUserId : String}
    (h : shareFile s asUser fileId toUserId = .ok s') :
    ∃ f, getFile s fileId = some f ∧ hasFileAccess s asUser fileId = true
      ∧ s' = updateFileRow s fileId (fun g => { g with users := f.users ++ [toUserId] }) := by
  unfold shareFile at h
  cases hf : getFile s fileId with
  | none => rw [hf] at h; cases h
  | some f =>
    rw [hf] at h
    by_cases ha : hasFileAccess s asUser fileId = true
    · rw [if_pos ha] at h
      unfold addToFileUsers at h
      rw [hf] at h
      refine ⟨f, rfl, ha, ?_⟩
      cases h
      rfl
    · rw [if_neg ha] at h
      cases h

theorem shareFile_ok_intro {s : Store} {asUser fileId toUserId : String} {f : File}
    (hf : getFile s fileId = some f) (ha : hasFileAccess s asUser fileId = true) :
    shareFile s asUser fileId toUserId
      = .ok (updateFileRow s fileId (fun g => { g with users := f.users ++ [toUserId] })) := by
  unfold shareFile addToFileUsers
  rw [hf]
  rw [if_pos ha]

/-- C2 amended: with both calls authorized, sharing a file twice with the same
user succeeds both times, but the second insert is not a no-op — the file's
users array ends with the grant entry appended twice (the user remains a
member; only the entry count differs from the claim). -/
theorem hasFolderAccess_updateFileRow (s : Store) (tid : String) (g : File → File) (u x : String) :
    hasFolderAccess (updateFileRow s tid g) u x = hasFolderAccess s u x :=
  @hasFolderAccess_congr s (updateFileRow s tid g) rfl (fun _ => rfl) u x

theorem fileUsersOf_updateFileRow_users (s : Store) (fileId : String) (us : List String)
    {f : File} (hf : getFile s fileId = some f) :
    fileUsersOf (updateFileRow s fileId (fun g => { g with users := us })) fileId = us := by
  unfold fileUsersOf
  rw [getFile_updateFileRow s fileId (fun g => { g with users := us }) (fun _ => rfl) fileId,
    if_pos rfl, hf]
  rfl

theorem C2_idempotent_share_amended (s s1 : Store) (asUser fileId toUserId : String) (f : File)
    (hf : getFile s fileId = some f)
    (h1 : shareFile s asUser fileId toUserId = .ok s1) :
    ∃ s2, shareFile s1 asUser fileId toUserId = .ok s2
      ∧ fileUsersOf s2 fileId = f.users ++ [toUserId, toUserId]
      ∧ toUserId ∈ fileUsersOf s2 fileId := by
  obtain ⟨f0, hf0, ha, hs1⟩ := shareFile_ok_elim h1
  rw [hf] at hf0
  injection hf0 with hff
  subst hff
  subst hs1
  have hg1 : getFile (updateFileRow s fileId (fun g => { g with users := f.users ++ [toUserId] }))
      fileId = some { f with users := f.users ++ [toUserId] } := by
    rw [getFile_updateFileRow s fileId (fun g => { g with users := f.users ++ [toUserId] })
      (fun _ => rfl) fileId, if_pos rfl, hf]
    rfl
  have hacc1 : hasFileAccess
      (updateFileRow s fileId (fun g => { g with users := f.users ++ [toUserId] }))
      asUser fileId = true := by
    rw [hasFileAccess_eq]
    refine ⟨_, hg1, ?_⟩
    rcases (hasFileAccess_eq s asUser fileId).mp ha with ⟨f2, hf2, hc | ⟨p, hp, hpa⟩⟩
    · rw [hf] at hf2
      injection hf2 with h2
      subst h2
      left
      have hm : asUser ∈ f.users := by simpa using hc
      simp [hm]
    · rw [hf] at hf2
      injection hf2 with h2
      subst h2
      right
      refine ⟨p, hp, ?_⟩
      rw [hasFolderAccess_updateFileRow]
      exact hpa
  have h2 := @shareFile_ok_intro
    (updateFileRow s fileId (fun g => { g with users := f.users ++ [toUserId] }))
    asUser fileId toUserId { f with users := f.users ++ [toUserId] } hg1 hacc1
  refine ⟨_, h2, ?_, ?_⟩
  · have hu := fileUsersOf_updateFileRow_users
      (updateFileRow s fileId (fun g => { g with users := f.users ++ [toUserId] }))
      fileId (({ f with users := f.users ++ [toUserId] } : File).users ++ [toUserId]) hg1
    rw [hu]
    simp
  · have hu := fileUsersOf_updateFileRow_users
      (updateFileRow s fileId (fun g => { g with users := f.users ++ [toUserId] }))
      fileId (({ f with users := f.users ++ [toUserId] } : File).users ++ [toUserId]) hg1
    rw [hu]
    simp

/-- the store sampleStoreB after one share of f1 with b. -/
def sampleStoreB1 : Store :=
  { files := [{ id := "f1", users := ["a", "b"] }] }

theorem C2_idempotent_share_amended_witness :
    (getFile sampleStoreB "f1" = some { id := "f1", users := ["a"] }
      ∧ shareFile sampleStoreB "a" "f1" "b" = .ok sampleStoreB1)
    ∧ ∃ s2, shareFile sampleStoreB1 "a" "f1" "b" = .ok s2
        ∧ fileUsersOf s2 "f1" = ["a"] ++ ["b", "b"]
        ∧ "b" ∈ fileUsersOf s2 "f1" :=
  ⟨⟨by rfl, by rfl⟩,
    C2_idempotent_share_amended sampleStoreB sampleStoreB1 "a" "f1" "b"
      { id := "f1", users := ["a"] } (by rfl) (by rfl)⟩

/-! Frame lemmas for the reparenting utilities, and inversion of moveFile. -/

theorem hasFolderAccess_fold_some {s : Store} {u x : String}
    (h : hasFolderAccess s u x = true) : ∃ fo, getFolder s x = some fo := by
  cases hg : getFolder s x with
  | none =>
    have : hasFolderAccess s u x = false := by
      unfold hasFolderAccess
      simp [hasFolderAccessFuel, hg]
    rw [this] at h
    cases h
  | some fo => exact ⟨fo, rfl⟩

theorem folderAccViewOf_updateFolderRow (s : Store) (tid : String) (g : Folder → Folder)
    (hg : ∀ f, (g f).id = f.id) (hu : ∀ f, (g f).users = f.users)
    (hp : ∀ f, (g f).parentFolder = f.parentFolder) (x : String) :
    folderAccViewOf (updateFolderRow s tid g) x = folderAccViewOf s x := by
  unfold folderAccViewOf
  rw [getFolder_updateFolderRow s tid g hg]
  by_cases hx : x = tid
  · rw [if_pos hx]
    cases getFolder s x <;> simp [hu, hp]
  · rw [if_neg hx]

theorem folderAccViewOf_filesUpd (s : Store) (tid : String) (fl : List String) (x : String) :
    folderAccViewOf (updateFolderRow s tid (fun g => { g with files := fl })) x
      = folderAccViewOf s x :=
  folderAccViewOf_updateFolderRow s tid (fun g => { g with files := fl })
    (fun _ => rfl) (fun _ => rfl) (fun _ => rfl) x

theorem getFile_setParent (s : Store) (fid : String) (pf : Option String) (x : String) :
    getFile (updateFileRow s fid (fun g => { g with parentFolder := pf })) x
      = if x = fid then (getFile s x).map (fun g => { g with parentFolder := pf })
        else getFile s x :=
  getFile_updateFileRow s fid (fun g => { g with parentFolder := pf }) (fun _ => rfl) x

theorem moveFile_ok_elim {s s' : Store} {asUser fileId : String} {toFolderId : Option String}
    (h : moveFile s asUser fileId toFolderId = .ok s') :
    ∃ f, getFile s fileId = some f ∧ hasFileAccess s asUser fileId = true
      ∧ getFile s' fileId = some { f with parentFolder := toFolderId }
      ∧ (∀ x, x ≠ fileId → getFile s' x = getFile s x)
      ∧ s'.folders.length = s.folders.length
      ∧ (∀ x, folderAccViewOf s' x = folderAccViewOf s x) := by
  cases hf : getFile s fileId with
  | none =>
    simp only [moveFile, hf] at h
    cases h
  | some f =>
    by_cases ha : hasFileAccess s asUser fileId = true
    case neg =>
      simp only [moveFile, hf, if_neg ha] at h
      cases h
    refine ⟨f, rfl, ha, ?_⟩
    have hself : getFile (updateFileRow s fileId
        (fun g => { g with parentFolder := toFolderId })) fileId
        = some { f with parentFolder := toFolderId } := by
      rw [getFile_setParent, if_pos rfl, hf]
      rfl
    have hother : ∀ x, x ≠ fileId → getFile (updateFileRow s fileId
        (fun g => { g with parentFolder := toFolderId })) x = getFile s x := by
      intro x hx
      rw [getFile_setParent, if_neg hx]
    have hset : setFileParentFolder s fileId toFolderId
        = .ok (updateFileRow s fileId (fun g => { g with parentFolder := toFolderId })) := by
      unfold setFileParentFolder
      rw [hf]
    cases toFolderId with
    | none =>
      simp only [moveFile, hf, if_pos ha, hset] at h
      cases hop : f.parentFolder with
      | none =>
        simp only [hop] at h
        injection h with hs'
        subst hs'
        exact ⟨hself, hother, rfl, fun x => rfl⟩
      | some oldParent =>
        simp only [hop] at h
        unfold removeFromFolderFiles at h
        cases hq : getFolder (updateFileRow s fileId
            (fun g => { g with parentFolder := none })) oldParent with
        | none => simp only [hq] at h; cases h
        | some q =>
          simp only [hq] at h
          injection h with hs'
          subst hs'
          refine ⟨hself, hother, ?_, ?_⟩
          · rw [folders_updateFolderRow_length]
            rfl
          · intro x
            exact folderAccViewOf_filesUpd _ oldParent _ x
    | some dest =>
      by_cases hda : hasFolderAccess s asUser dest = true
      case neg =>
        simp only [moveFile, hf, if_pos ha, if_neg hda] at h
        cases h
      simp only [moveFile, hf, if_pos ha, if_pos hda, hset] at h
      cases hop : f.parentFolder with
      | none =>
        simp only [hop] at h
        unfold addToFolderFiles at h
        cases hq : getFolder (updateFileRow s fileId
            (fun g => { g with parentFolder := some dest })) dest with
        | none => simp only [hq] at h; cases h
        | some q =>
          simp only [hq] at h
          injection h with hs'
          subst hs'
          refine ⟨hself, hother, ?_, ?_⟩
          · rw [folders_updateFolderRow_length]
            rfl
          · intro x
            exact folderAccViewOf_filesUpd _ dest _ x
      | some oldParent =>
        simp only [hop] at h
        unfold removeFromFolderFiles at h
        cases hq : getFolder (updateFileRow s fileId
            (fun g => { g with parentFolder := some dest })) oldParent with
        | none => simp only [hq] at h; cases h
        | some q =>
          simp only [hq] at h
          unfold addToFolderFiles at h
          cases hq2 : getFolder (updateFolderRow (updateFileRow s fileId
              (fun g => { g with parentFolder := some dest })) oldParent
              (fun g => { g with files := q.files.filter (fun i => i ≠ fileId) })) dest with
          | none => simp only [hq2] at h; cases h
          | some q2 =>
            simp only [hq2] at h
            injection h with hs'
            subst hs'
            refine ⟨hself, hother, ?_, ?_⟩
            · rw [folders_updateFolderRow_length, folders_updateFolderRow_length]
              rfl
            · intro x
              rw [folderAccViewOf_filesUpd, folderAccViewOf_filesUpd]
              rfl

/-! Claim C4: a direct grant on a file survives any successful move of it. -/

/-- C4: a successful moveFile (any authorized actor, any destination including
null) keeps the moved file's users array unchanged, so any user with a direct
grant on the file still passes the access check afterwards. -/
theorem C4_direct_grant_survives_move (s s' : Store) (asUser fileId : String)
    (toFolderId : Option String) (f : File) (u : String)
    (hf : getFile s fileId = some f)
    (h : moveFile s asUser fileId toFolderId = .ok s')
    (hu : u ∈ f.users) :
    fileUsersOf s' fileId = f.users ∧ hasFileAccess s' u fileId = true := by
  obtain ⟨f0, hf0, ha, hself, hother, hlen, hview⟩ := moveFile_ok_elim h
  rw [hf] at hf0
  injection hf0 with hff
  subst hff
  constructor
  · unfold fileUsersOf
    rw [hself]
    rfl
  · rw [hasFileAccess_eq]
    refine ⟨_, hself, Or.inl ?_⟩
    simpa using hu

/-- a store with a directly shared file inside one folder and a second folder
closed to the grantee. -/
def sampleStoreD : Store :=
  { files := [{ id := "x1", parentFolder := some "d1", users := ["bob"] }],
    folders := [{ id := "d1", users := ["owner"] },
                { id := "d2", users := ["owner"] }] }

theorem C4_direct_grant_survives_move_witness :
    (getFile sampleStoreD "x1"
        = some { id := "x1", parentFolder := some "d1", users := ["bob"] }
      ∧ (moveFile sampleStoreD "owner" "x1" (some "d2")).isOk = true
      ∧ "bob" ∈ ["bob"])
    ∧ ∃ s', fileUsersOf s' "x1" = ["bob"] ∧ hasFileAccess s' "bob" "x1" = true := by
  refine ⟨⟨rfl, rfl, by decide⟩, ?_⟩
  cases hm : moveFile sampleStoreD "owner" "x1" (some "d2") with
  | error e =>
    have : (moveFile sampleStoreD "owner" "x1" (some "d2")).isOk = true := by rfl
    rw [hm] at this
    cases this
  | ok s' =>
    obtain ⟨h1, h2⟩ := C4_direct_grant_survives_move sampleStoreD s' "owner" "x1" (some "d2")
      { id := "x1", parentFolder := some "d1", users := ["bob"] } "bob" rfl hm (by decide)
    exact ⟨s', h1, h2⟩

/-! Claim C7: a missing destination folder yields FORBIDDEN, not NOT_FOUND. -/

/-- a lone accessible file and no folders at all. -/
def sampleStoreC : Store :=
  { files := [{ id := "f1", users := ["u"] }] }

/-- C7 counterexample: moving the accessible existing file f1 into the
nonexistent folder g fails with FORBIDDEN, not with the NOT_FOUND the claim
requires for a missing destination. -/
theorem C7_counterexample :
    getFolder sampleStoreC "g" = none
    ∧ moveFile sampleStoreC "u" "f1" (some "g") = .error Code.FORBIDDEN
    ∧ moveFile sampleStoreC "u" "f1" (some "g") ≠ .error Code.NOT_FOUND := by
  refine ⟨rfl, rfl, ?_⟩
  intro hc
  rw [show moveFile sampleStoreC "u" "f1" (some "g") = .error Code.FORBIDDEN from rfl] at hc
  injection hc with he
  cases he

/-- C7 amended: moveFile with an accessible existing file and a destination id
absent from the store fails with FORBIDDEN — the ancestor walk returns false
on a missing folder, so a missing destination is indistinguishable from an
existing inaccessible one; NOT_FOUND is reserved for a missing file. -/
theorem C7_missing_dest_forbidden (s : Store) (asUser fileId dest : String) (f : File)
    (hf : getFile s fileId = some f)
    (ha : hasFileAccess s asUser fileId = true)
    (hd : getFolder s dest = none) :
    moveFile s asUser fileId (some dest) = .error Code.FORBIDDEN := by
  have hacc : hasFolderAccess s asUser dest = false := by
    unfold hasFolderAccess
    simp [hasFolderAccessFuel, hd]
  simp only [moveFile, hf, if_pos ha]
  rw [if_neg (by simp [hacc])]

theorem C7_missing_dest_forbidden_witness :
    (getFile sampleStoreC "f1" = some { id := "f1", users := ["u"] }
      ∧ hasFileAccess sampleStoreC "u" "f1" = true
      ∧ getFolder sampleStoreC "g" = none)
    ∧ moveFile sampleStoreC "u" "f1" (some "g") = .error Code.FORBIDDEN :=
  ⟨⟨rfl, rfl, rfl⟩,
    C7_missing_dest_forbidden sampleStoreC "u" "f1" "g" { id := "f1", users := ["u"] }
      rfl rfl rfl⟩

/-! Claim C9: the creator can access a freshly created parentless file. -/

theorem getFile_setUsers (s : Store) (fid : String) (us : List String) (x : String) :
    getFile (updateFileRow s fid (fun g => { g with users := us })) x
      = if x = fid then (getFile s x).map (fun g => { g with users := us }) else getFile s x :=
  getFile_updateFileRow s fid (fun g => { g with users := us }) (fun _ => rfl) x

theorem createFile_none_ok_elim {s s' : Store} {f : File} {asUser newId : String}
    {name contents : Option String}
    (h : createFile s asUser name contents none newId = .ok (s', f)) :
    getFile s newId = none
    ∧ f = { id := newId, name := name, contents := contents }
    ∧ getFile s' newId
        = some { id := newId, name := name, contents := contents, parentFolder := none,
                 users := [asUser] }
    ∧ (∀ x, x ≠ newId → getFile s' x = getFile s x)
    ∧ s'.folders.length = s.folders.length
    ∧ (∀ x, folderAccViewOf s' x = folderAccViewOf s x) := by
  by_cases hfresh : (getFile s newId).isSome
  · simp only [createFile, dbCreateFile, if_pos hfresh] at h
    cases h
  · have hfresh2 : getFile s newId = none := Option.not_isSome_iff_eq_none.mp hfresh
    have hg1 : getFile { s with files := s.files ++
        [{ id := newId, name := name, contents := contents }] } newId
        = some { id := newId, name := name, contents := contents } := by
      rw [getFile_insert, hfresh2, if_pos rfl]
      rfl
    simp only [createFile, dbCreateFile, if_neg hfresh, addToFileUsers, hg1] at h
    injection h with hpair
    injection hpair with hs' hf
    subst hs'
    subst hf
    refine ⟨hfresh2, rfl, ?_, ?_, rfl, fun x => rfl⟩
    · rw [getFile_setUsers, if_pos rfl, hg1]
      rfl
    · intro x hx
      rw [getFile_setUsers, if_neg hx, getFile_insert]
      rw [if_neg (fun hc => hx (by simpa using hc.symm))]
      cases getFile s x <;> rfl

/-- C9: immediately after a successful createFile with no parent folder, the
creating user is in the new file's users array and passes the access check on
the new file's id. -/
theorem C9_creator_access (s s' : Store) (asUser newId : String)
    (name contents : Option String) (f : File)
    (h : createFile s asUser name contents none newId = .ok (s', f)) :
    asUser ∈ fileUsersOf s' f.id ∧ hasFileAccess s' asUser f.id = true := by
  obtain ⟨hfresh, hfeq, hg, hother, hlen, hview⟩ := createFile_none_ok_elim h
  subst hfeq
  have hid : ({ id := newId, name := name, contents := contents } : File).id = newId := rfl
  rw [hid]
  constructor
  · unfold fileUsersOf
    rw [hg]
    simp
  · rw [hasFileAccess_eq]
    exact ⟨_, hg, Or.inl (by simp)⟩

/-- the empty database. -/
def emptyStore : Store := {}

/-- the store after u creates file n1 in the empty database. -/
def sampleStoreE1 : Store :=
  { files := [{ id := "n1", users := ["u"] }] }

theorem C9_creator_access_witness :
    createFile emptyStore "u" none none none "n1" = .ok (sampleStoreE1, { id := "n1" })
    ∧ ("u" ∈ fileUsersOf sampleStoreE1 "n1"
        ∧ hasFileAccess sampleStoreE1 "u" "n1" = true) :=
  ⟨by rfl,
    C9_creator_access emptyStore sampleStoreE1 "u" "n1" none none { id := "n1" } (by rfl)⟩

/-! Claim C10: sharing never consults the user table. -/

theorem getFolder_setUsers (s : Store) (fid : String) (us : List String) (x : String) :
    getFolder (updateFolderRow s fid (fun g => { g with users := us })) x
      = if x = fid then (getFolder s x).map (fun g => { g with users := us })
        else getFolder s x :=
  getFolder_updateFolderRow s fid (fun g => { g with users := us }) (fun _ => rfl) x

theorem folderUsersOf_updateFolderRow_users (s : Store) (folderId : String) (us : List String)
    {fo : Folder} (hf : getFolder s folderId = some fo) :
    folderUsersOf (updateFolderRow s folderId (fun g => { g with users := us })) folderId
      = us := by
  unfold folderUsersOf
  rw [getFolder_setUsers, if_pos rfl, hf]
  rfl

/-- C10: neither shareFile nor shareFolder looks `toUserId` up in the user
table — with an authorized caller and an existing target, sharing with a
string that names no user row succeeds and appends that string to the node's
users array instead of failing with NOT_FOUND (the folder half is stated for
a childless folder, where the recursive walk touches only the target). -/
theorem C10_share_ignores_user_table (s : Store) (asUser toUserId : String)
    (_hnou : ∀ ur ∈ s.users, ur.id ≠ toUserId) :
    (∀ fileId f, getFile s fileId = some f → hasFileAccess s asUser fileId = true →
      ∃ s', shareFile s asUser fileId toUserId = .ok s'
        ∧ fileUsersOf s' fileId = f.users ++ [toUserId])
    ∧ (∀ folderId fo, getFolder s folderId = some fo →
        hasFolderAccess s asUser folderId = true → fo.files = [] → fo.folders = [] →
      ∃ s', shareFolder s asUser folderId toUserId = .ok s'
        ∧ folderUsersOf s' folderId = fo.users ++ [toUserId]) := by
  constructor
  · intro fileId f hf ha
    exact ⟨_, @shareFile_ok_intro s asUser fileId toUserId f hf ha,
      fileUsersOf_updateFileRow_users s fileId (f.users ++ [toUserId]) hf⟩
  · intro folderId fo hfo ha hfiles hfolders
    have hadd : addToFolderUsers s folderId toUserId
        = .ok (updateFolderRow s folderId
            (fun g => { g with users := fo.users ++ [toUserId] })) := by
      unfold addToFolderUsers
      rw [hfo]
    have hg1 : getFolder (updateFolderRow s folderId
        (fun g => { g with users := fo.users ++ [toUserId] })) folderId
        = some { fo with users := fo.users ++ [toUserId] } := by
      rw [getFolder_setUsers, if_pos rfl, hfo]
      rfl
    refine ⟨_, ?_, folderUsersOf_updateFolderRow_users s folderId (fo.users ++ [toUserId]) hfo⟩
    simp only [shareFolder, hfo, if_pos ha, shareRec, hadd, hg1, hfiles, hfolders,
      addFilesUsers, shareRecList]

/-- a user table with one real user, plus a file and a folder owned by them. -/
def sampleStoreF : Store :=
  { users := [{ id := "owner" }],
    files := [{ id := "f1", users := ["owner"] }],
    folders := [{ id := "d1", users := ["owner"] }] }

theorem C10_share_ignores_user_table_witness :
    (∀ ur ∈ sampleStoreF.users, ur.id ≠ "ghost")
    ∧ (∃ s', shareFile sampleStoreF "owner" "f1" "ghost" = .ok s'
        ∧ fileUsersOf s' "f1" = ["owner"] ++ ["ghost"])
    ∧ (∃ s', shareFolder sampleStoreF "owner" "d1" "ghost" = .ok s'
        ∧ folderUsersOf s' "d1" = ["owner"] ++ ["ghost"]) :=
  have hnou : ∀ ur ∈ sampleStoreF.users, ur.id ≠ "ghost" := by decide
  ⟨hnou,
    (C10_share_ignores_user_table sampleStoreF "owner" "ghost" hnou).1 "f1"
      { id := "f1", users := ["owner"] } (by rfl) (by rfl),
    (C10_share_ignores_user_table sampleStoreF "owner" "ghost" hnou).2 "d1"
      { id := "d1", users := ["owner"] } (by rfl) (by rfl) rfl rfl⟩

/-! Claim C3: derived access is recomputed from current ancestry on every check. -/

theorem folderAccViewOf_updateFileRow (s : Store) (tid : String) (g : File → File)
    (x : String) :
    folderAccViewOf (updateFileRow s tid g) x = folderAccViewOf s x := rfl

theorem folders_updateFileRow_length (s : Store) (tid : String) (g : File → File) :
    (updateFileRow s tid g).folders.length = s.folders.length := rfl

theorem createFile_some_ok_elim {s s' : Store} {f : File} {asUser newId pf : String}
    {name contents : Option String}
    (h : createFile s asUser name contents (some pf) newId = .ok (s', f)) :
    getFile s newId = none
    ∧ hasFolderAccess s asUser pf = true
    ∧ f = { id := newId, name := name, contents := contents }
    ∧ getFile s' newId
        = some { id := newId, name := name, contents := contents, parentFolder := some pf,
                 users := [asUser] }
    ∧ (∀ x, x ≠ newId → getFile s' x = getFile s x)
    ∧ s'.folders.length = s.folders.length
    ∧ (∀ x, folderAccViewOf s' x = folderAccViewOf s x) := by
  by_cases ha : hasFolderAccess s asUser pf = true
  case neg =>
    simp only [createFile, if_neg ha] at h
    cases h
  by_cases hfresh : (getFile s newId).isSome
  · simp only [createFile, if_pos ha, dbCreateFile, if_pos hfresh] at h
    cases h
  · have hfresh2 : getFile s newId = none := Option.not_isSome_iff_eq_none.mp hfresh
    obtain ⟨q, hq⟩ := hasFolderAccess_fold_some ha
    have hg1 : getFile { s with files := s.files ++
        [{ id := newId, name := name, contents := contents }] } newId
        = some { id := newId, name := name, contents := contents } := by
      rw [getFile_insert, hfresh2, if_pos rfl]
      rfl
    have hg2 : getFile (updateFileRow { s with files := s.files ++
        [{ id := newId, name := name, contents := contents }] } newId
          (fun g => { g with parentFolder := some pf })) newId
        = some { id := newId, name := name, contents := contents,
                 parentFolder := some pf } := by
      rw [getFile_setParent, if_pos rfl, hg1]
      rfl
    have hq2 : getFolder (updateFileRow { s with files := s.files ++
        [{ id := newId, name := name, contents := contents }] } newId
          (fun g => { g with parentFolder := some pf })) pf = some q := hq
    have hg3 : getFile (updateFolderRow (updateFileRow { s with files := s.files ++
        [{ id := newId, name := name, contents := contents }] } newId
          (fun g => { g with parentFolder := some pf })) pf
          (fun g => { g with files := q.files ++ [newId] })) newId
        = some { id := newId, name := name, contents := contents,
                 parentFolder := some pf } := hg2
    simp only [createFile, if_pos ha, dbCreateFile, if_neg hfresh, setFileParentFolder,
      hg1, addToFolderFiles, addToFileUsers, hq2, hg3] at h
    injection h with hpair
    injection hpair with hs' hf
    subst hs'
    subst hf
    refine ⟨hfresh2, ha, rfl, ?_, ?_, ?_, ?_⟩
    · rw [getFile_setUsers, if_pos rfl, hg3]
      rfl
    · intro x hx
      rw [getFile_setUsers, if_neg hx, getFile_updateFolderRow, getFile_setParent,
        if_neg hx, getFile_insert]
      rw [if_neg (fun hc => hx (by simpa using hc.symm))]
      cases getFile s x <;> rfl
    · rw [folders_updateFileRow_length, folders_updateFolderRow_length,
        folders_updateFileRow_length]
    · intro x
      rw [folderAccViewOf_updateFileRow, folderAccViewOf_filesUpd,
        folderAccViewOf_updateFileRow]
      rfl

/-- C3: sharing folder F with u, then creating file X under F (by a creator
other than u, so X carries no direct grant for u), then moving X into a folder
G that u cannot access, leaves the access check for u on X false — derived
access is recomputed from the current ancestry, not cached from the old one. -/
theorem C3_move_strips_derived (s s1 s2 s3 : Store) (owner u mover F G X : String)
    (nm ct : Option String) (fX : File)
    (_hshare : shareFolder s owner F u = .ok s1)
    (hcreate : createFile s1 owner nm ct (some F) X = .ok (s2, fX))
    (hmove : moveFile s2 mover X (some G) = .ok s3)
    (hne : owner ≠ u)
    (hnoacc : hasFolderAccess s2 u G = false) :
    hasFileAccess s3 u X = false := by
  obtain ⟨hfresh, haccF, hfeq, hgX, hotherX, hlen2, hview2⟩ := createFile_some_ok_elim hcreate
  obtain ⟨f0, hf0, ha0, hself, hother, hlen3, hview3⟩ := moveFile_ok_elim hmove
  rw [hgX] at hf0
  injection hf0 with hf0e
  subst hf0e
  cases hb : hasFileAccess s3 u X with
  | false => rfl
  | true =>
    exfalso
    obtain ⟨f', hf', hcase⟩ := (hasFileAccess_eq s3 u X).mp hb
    rw [hself] at hf'
    injection hf' with hfe
    subst hfe
    rcases hcase with hc | ⟨p, hp, hacc⟩
    · have : u = owner := by simpa using hc
      exact hne this.symm
    · have hpG : p = G := by
        have h2 : (some G : Option String) = some p := hp
        injection h2 with h3
        exact h3.symm
      rw [hpG, hasFolderAccess_congr hlen3 hview3 u G, hnoacc] at hacc
      cases hacc

/-- two sibling folders owned by o; u is a stranger. -/
def sampleStoreG0 : Store :=
  { folders := [{ id := "F", users := ["o"] }, { id := "G", users := ["o"] }] }

/-- sampleStoreG0 after sharing F with u. -/
def sampleStoreG1 : Store :=
  { folders := [{ id := "F", users := ["o", "u"] }, { id := "G", users := ["o"] }] }

/-- sampleStoreG1 after o creates file X inside F. -/
def sampleStoreG2 : Store :=
  { files := [{ id := "X", parentFolder := some "F", users := ["o"] }],
    folders := [{ id := "F", files := ["X"], users := ["o", "u"] },
                { id := "G", users := ["o"] }] }

/-- sampleStoreG2 after o moves X into G. -/
def sampleStoreG3 : Store :=
  { files := [{ id := "X", parentFolder := some "G", users := ["o"] }],
    folders := [{ id := "F", files := [], users := ["o", "u"] },
                { id := "G", files := ["X"], users := ["o"] }] }

theorem C3_move_strips_derived_witness :
    (shareFolder sampleStoreG0 "o" "F" "u" = .ok sampleStoreG1
      ∧ createFile sampleStoreG1 "o" none none (some "F") "X" = .ok (sampleStoreG2, { id := "X" })
      ∧ moveFile sampleStoreG2 "o" "X" (some "G") = .ok sampleStoreG3
      ∧ "o" ≠ "u"
      ∧ hasFolderAccess sampleStoreG2 "u" "G" = false)
    ∧ hasFileAccess sampleStoreG3 "u" "X" = false :=
  ⟨⟨by rfl, by rfl, by rfl, by decide, by rfl⟩,
    C3_move_strips_derived sampleStoreG0 sampleStoreG1 sampleStoreG2 sampleStoreG3
      "o" "u" "o" "F" "G" "X" none none { id := "X" }
      (by rfl) (by rfl) (by rfl) (by decide) (by rfl)⟩

/-! Claim C5: infrastructure — what a recursive share may change. -/

theorem mem_append_replicate {u toU : String} {l : List String} {k : Nat} (hne : u ≠ toU) :
    u ∈ l ++ List.replicate k toU ↔ u ∈ l := by
  simp [List.mem_append, List.mem_replicate, hne]

theorem fileShapeOf_setUsers (s : Store) (fid : String) (us : List String) (x : String) :
    fileShapeOf (updateFileRow s fid (fun g => { g with users := us })) x
      = fileShapeOf s x := by
  unfold fileShapeOf
  rw [getFile_setUsers]
  by_cases hx : x = fid
  · rw [if_pos hx]
    cases getFile s x <;> simp
  · rw [if_neg hx]

theorem folderShapeOf_setUsers (s : Store) (fid : String) (us : List String) (x : String) :
    folderShapeOf (updateFolderRow s fid (fun g => { g with users := us })) x
      = folderShapeOf s x := by
  unfold folderShapeOf
  rw [getFolder_setUsers]
  by_cases hx : x = fid
  · rw [if_pos hx]
    cases getFolder s x <;> simp
  · rw [if_neg hx]

theorem fileUsersOf_eq_users {s : Store} {x : String} {f : File}
    (h : getFile s x = some f) : fileUsersOf s x = f.users := by
  unfold fileUsersOf
  rw [h]
  rfl

theorem folderUsersOf_eq_users {s : Store} {x : String} {f : Folder}
    (h : getFolder s x = some f) : folderUsersOf s x = f.users := by
  unfold folderUsersOf
  rw [h]
  rfl

theorem addToFileUsers_ok_spec {s s' : Store} {fid toU : String}
    (h : addToFileUsers s fid toU = .ok s') :
    (∀ x, getFolder s' x = getFolder s x)
    ∧ (∀ x, fileShapeOf s' x = fileShapeOf s x)
    ∧ fileUsersOf s' fid = fileUsersOf s fid ++ [toU]
    ∧ (∀ x, x ≠ fid → fileUsersOf s' x = fileUsersOf s x) := by
  unfold addToFileUsers at h
  cases hf : getFile s fid with
  | none => rw [hf] at h; cases h
  | some req =>
    rw [hf] at h
    injection h with hs'
    subst hs'
    refine ⟨fun x => rfl, fileShapeOf_setUsers s fid _, ?_, ?_⟩
    · rw [fileUsersOf_eq_users hf]
      unfold fileUsersOf
      rw [getFile_setUsers, if_pos rfl, hf]
      rfl
    · intro x hx
      unfold fileUsersOf
      rw [getFile_setUsers, if_neg hx]

theorem addToFolderUsers_ok_spec {s s' : Store} {fid toU : String}
    (h : addToFolderUsers s fid toU = .ok s') :
    (∃ req, getFolder s fid = some req)
    ∧ (∀ x, getFile s' x = getFile s x)
    ∧ (∀ x, folderShapeOf s' x = folderShapeOf s x)
    ∧ folderUsersOf s' fid = folderUsersOf s fid ++ [toU]
    ∧ (∀ x, x ≠ fid → folderUsersOf s' x = folderUsersOf s x) := by
  unfold addToFolderUsers at h
  cases hf : getFolder s fid with
  | none => rw [hf] at h; cases h
  | some req =>
    rw [hf] at h
    injection h with hs'
    subst hs'
    refine ⟨⟨req, rfl⟩, fun x => rfl, folderShapeOf_setUsers s fid _, ?_, ?_⟩
    · rw [folderUsersOf_eq_users hf]
      unfold folderUsersOf
      rw [getFolder_setUsers, if_pos rfl, hf]
      rfl
    · intro x hx
      unfold folderUsersOf
      rw [getFolder_setUsers, if_neg hx]

theorem addFilesUsers_spec (toU : String) :
    ∀ l (s s' : Store), addFilesUsers toU s l = .ok s' →
      (∀ x, getFolder s' x = getFolder s x)
      ∧ (∀ x, fileShapeOf s' x = fileShapeOf s x)
      ∧ (∀ x, ∃ k, fileUsersOf s' x = fileUsersOf s x ++ List.replicate k toU)
      ∧ (∀ x, toU ∈ fileUsersOf s' x ↔ (toU ∈ fileUsersOf s x ∨ x ∈ l)) := by
  intro l
  induction l with
  | nil =>
    intro s s' h
    simp only [addFilesUsers] at h
    injection h with hs'
    subst hs'
    exact ⟨fun x => rfl, fun x => rfl, fun x => ⟨0, by simp⟩, fun x => by simp⟩
  | cons fid rest ih =>
    intro s s' h
    simp only [addFilesUsers] at h
    cases hstep : addToFileUsers s fid toU with
    | error e =>
      simp only [hstep] at h
      cases h
    | ok s1 =>
      simp only [hstep] at h
      obtain ⟨hg1, hshape1, hub1, hother1⟩ := addToFileUsers_ok_spec hstep
      obtain ⟨hg2, hshape2, hrep2, hmem2⟩ := ih s1 s' h
      refine ⟨fun x => (hg2 x).trans (hg1 x), fun x => (hshape2 x).trans (hshape1 x), ?_, ?_⟩
      · intro x
        obtain ⟨k, hk⟩ := hrep2 x
        by_cases hx : x = fid
        · subst hx
          refine ⟨k + 1, ?_⟩
          rw [hk, hub1, List.append_assoc]
          rfl
        · exact ⟨k, by rw [hk, hother1 x hx]⟩
      · intro x
        rw [hmem2 x]
        by_cases hx : x = fid
        · subst hx
          rw [hub1]
          simp [List.mem_append]
        · rw [hother1 x hx]
          simp [List.mem_cons, hx]

theorem folderShape_transfer {s s' : Store} {x : String}
    (h : folderShapeOf s' x = folderShapeOf s x) {f : Folder} (hf : getFolder s x = some f) :
    ∃ f', getFolder s' x = some f' ∧ f'.parentFolder = f.parentFolder
      ∧ f'.files = f.files ∧ f'.folders = f.folders := by
  unfold folderShapeOf at h
  rw [hf] at h
  cases hg : getFolder s' x with
  | none => rw [hg] at h; simp at h
  | some f' =>
    rw [hg] at h
    simp only [Option.map_some'] at h
    injection h with htriple
    refine ⟨f', rfl, ?_, ?_, ?_⟩
    · exact congrArg Prod.fst htriple
    · exact congrArg (fun t => t.snd.fst) htriple
    · exact congrArg (fun t => t.snd.snd) htriple

theorem folderUnder_congr {s s' : Store}
    (h : ∀ x, folderShapeOf s' x = folderShapeOf s x) :
    ∀ {root x : String}, FolderUnder s root x → FolderUnder s' root x := by
  intro root x hu
  induction hu with
  | refl y => exact FolderUnder.refl y
  | step f hf hc _ ih =>
    obtain ⟨f', hf', _, _, hfolders⟩ := folderShape_transfer (h _) hf
    exact FolderUnder.step f' hf' (by rw [hfolders]; exact hc) ih

theorem fileUnder_congr {s s' : Store}
    (h : ∀ x, folderShapeOf s' x = folderShapeOf s x) :
    ∀ {root x : String}, FileUnder s root x → FileUnder s' root x := by
  intro root x hu
  induction hu with
  | here f hf hc =>
    obtain ⟨f', hf', _, hfiles, _⟩ := folderShape_transfer (h _) hf
    exact FileUnder.here f' hf' (by rw [hfiles]; exact hc)
  | step f hf hc _ ih =>
    obtain ⟨f', hf', _, _, hfolders⟩ := folderShape_transfer (h _) hf
    exact FileUnder.step f' hf' (by rw [hfolders]; exact hc) ih

theorem folderUnder_iff {s : Store} {root x : String} {req : Folder}
    (hr : getFolder s root = some req) :
    FolderUnder s root x ↔ (x = root ∨ ∃ c ∈ req.folders, FolderUnder s c x) := by
  constructor
  · intro h
    cases h with
    | refl y => exact Or.inl rfl
    | step f hf hc hrest =>
      rw [hr] at hf
      injection hf with hfe
      subst hfe
      exact Or.inr ⟨_, hc, hrest⟩
  · rintro (rfl | ⟨c, hc, h⟩)
    · exact FolderUnder.refl x
    · exact FolderUnder.step req hr hc h

theorem fileUnder_iff {s : Store} {root x : String} {req : Folder}
    (hr : getFolder s root = some req) :
    FileUnder s root x ↔ (x ∈ req.files ∨ ∃ c ∈ req.folders, FileUnder s c x) := by
  constructor
  · intro h
    cases h with
    | here f hf hc =>
      rw [hr] at hf
      injection hf with hfe
      subst hfe
      exact Or.inl hc
    | step f hf hc hrest =>
      rw [hr] at hf
      injection hf with hfe
      subst hfe
      exact Or.inr ⟨_, hc, hrest⟩
  · rintro (hc | ⟨c, hc, h⟩)
    · exact FileUnder.here req hr hc
    · exact FileUnder.step req hr hc h

theorem shareRec_spec (toUserId : String) :
    ∀ fuel (s : Store) (root : String) (s' : Store),
      shareRec toUserId fuel s root = .ok s' →
      (∀ x, folderShapeOf s' x = folderShapeOf s x)
      ∧ (∀ x, fileShapeOf s' x = fileShapeOf s x)
      ∧ (∀ x, ∃ k, folderUsersOf s' x = folderUsersOf s x ++ List.replicate k toUserId)
      ∧ (∀ x, ∃ k, fileUsersOf s' x = fileUsersOf s x ++ List.replicate k toUserId)
      ∧ (∀ x, toUserId ∈ folderUsersOf s' x
          ↔ (toUserId ∈ folderUsersOf s x ∨ FolderUnder s root x))
      ∧ (∀ x, toUserId ∈ fileUsersOf s' x
          ↔ (toUserId ∈ fileUsersOf s x ∨ FileUnder s root x)) := by
  intro fuel
  induction fuel with
  | zero =>
    intro s root s' h
    simp only [shareRec] at h
    cases h
  | succ fuel ih =>
    intro s root s' h
    simp only [shareRec] at h
    cases hadd : addToFolderUsers s root toUserId with
    | error e =>
      simp only [hadd] at h
      cases h
    | ok sA =>
      simp only [hadd] at h
      obtain ⟨⟨req, hreq⟩, hgfA, hshA, husA, hothA⟩ := addToFolderUsers_ok_spec hadd
      obtain ⟨folA, hfolA, hpA, hfilesA, hfoldersA⟩ := folderShape_transfer (hshA root) hreq
      cases hget : getFolder sA root with
      | none =>
        rw [hfolA] at hget
        cases hget
      | some folder =>
        simp only [hget] at h
        rw [hfolA] at hget
        injection hget with he
        subst he
        cases hfiles : addFilesUsers toUserId sA folA.files with
        | error e =>
          simp only [hfiles] at h
          cases h
        | ok sB =>
          simp only [hfiles] at h
          obtain ⟨hgfB, hshfB, hrepB, hmemB⟩ := addFilesUsers_spec toUserId folA.files sA sB hfiles
          have hshB : ∀ x, folderShapeOf sB x = folderShapeOf sA x := by
            intro x
            unfold folderShapeOf
            rw [hgfB x]
          have husB : ∀ x, folderUsersOf sB x = folderUsersOf sA x := by
            intro x
            unfold folderUsersOf
            rw [hgfB x]
          have hfshA : ∀ x, fileShapeOf sA x = fileShapeOf s x := by
            intro x
            unfold fileShapeOf
            rw [hgfA x]
          have hfusA : ∀ x, fileUsersOf sA x = fileUsersOf s x := by
            intro x
            unfold fileUsersOf
            rw [hgfA x]
          have listSpec : ∀ l (st st' : Store),
              shareRecList (fun a b => shareRec toUserId fuel a b) st l = .ok st' →
              (∀ x, folderShapeOf st' x = folderShapeOf st x)
              ∧ (∀ x, fileShapeOf st' x = fileShapeOf st x)
              ∧ (∀ x, ∃ k, folderUsersOf st' x = folderUsersOf st x ++ List.replicate k toUserId)
              ∧ (∀ x, ∃ k, fileUsersOf st' x = fileUsersOf st x ++ List.replicate k toUserId)
              ∧ (∀ x, toUserId ∈ folderUsersOf st' x
                  ↔ (toUserId ∈ folderUsersOf st x ∨ ∃ c ∈ l, FolderUnder st c x))
              ∧ (∀ x, toUserId ∈ fileUsersOf st' x
                  ↔ (toUserId ∈ fileUsersOf st x ∨ ∃ c ∈ l, FileUnder st c x)) := by
            intro l
            induction l with
            | nil =>
              intro st st' hl
              simp only [shareRecList] at hl
              injection hl with he
              subst he
              exact ⟨fun x => rfl, fun x => rfl, fun x => ⟨0, by simp⟩, fun x => ⟨0, by simp⟩,
                fun x => by simp, fun x => by simp⟩
            | cons c rest ihl =>
              intro st st' hl
              simp only [shareRecList] at hl
              cases hc : shareRec toUserId fuel st c with
              | error e =>
                simp only [hc] at hl
                cases hl
              | ok st1 =>
                simp only [hc] at hl
                obtain ⟨sh1, shf1, rep1, repf1, mem1, memf1⟩ := ih st c st1 hc
                obtain ⟨sh2, shf2, rep2, repf2, mem2, memf2⟩ := ihl st1 st' hl
                refine ⟨fun x => (sh2 x).trans (sh1 x), fun x => (shf2 x).trans (shf1 x),
                  ?_, ?_, ?_, ?_⟩
                · intro x
                  obtain ⟨k1, hk1⟩ := rep1 x
                  obtain ⟨k2, hk2⟩ := rep2 x
                  refine ⟨k1 + k2, ?_⟩
                  rw [hk2, hk1, List.append_assoc, List.replicate_add]
                · intro x
                  obtain ⟨k1, hk1⟩ := repf1 x
                  obtain ⟨k2, hk2⟩ := repf2 x
                  refine ⟨k1 + k2, ?_⟩
                  rw [hk2, hk1, List.append_assoc, List.replicate_add]
                · intro x
                  rw [mem2 x, mem1 x]
                  constructor
                  · rintro ((hm | hU) | ⟨c', hc', hU⟩)
                    · exact Or.inl hm
                    · exact Or.inr ⟨c, by simp, hU⟩
                    · exact Or.inr ⟨c', by simp [hc'],
                        folderUnder_congr (fun y => (sh1 y).symm) hU⟩
                  · rintro (hm | ⟨c', hc', hU⟩)
                    · exact Or.inl (Or.inl hm)
                    · rcases List.mem_cons.mp hc' with rfl | hrest
                      · exact Or.inl (Or.inr hU)
                      · exact Or.inr ⟨c', hrest, folderUnder_congr sh1 hU⟩
                · intro x
                  rw [memf2 x, memf1 x]
                  constructor
                  · rintro ((hm | hU) | ⟨c', hc', hU⟩)
                    · exact Or.inl hm
                    · exact Or.inr ⟨c, by simp, hU⟩
                    · exact Or.inr ⟨c', by simp [hc'],
                        fileUnder_congr (fun y => (sh1 y).symm) hU⟩
                  · rintro (hm | ⟨c', hc', hU⟩)
                    · exact Or.inl (Or.inl hm)
                    · rcases List.mem_cons.mp hc' with rfl | hrest
                      · exact Or.inl (Or.inr hU)
                      · exact Or.inr ⟨c', hrest, fileUnder_congr sh1 hU⟩
          obtain ⟨shL, shfL, repL, repfL, memL, memfL⟩ := listSpec folA.folders sB s' h
          have hshBs : ∀ y, folderShapeOf sB y = folderShapeOf s y :=
            fun y => (hshB y).trans (hshA y)
          have hrepA : ∀ x, ∃ k,
              folderUsersOf sA x = folderUsersOf s x ++ List.replicate k toUserId := by
            intro x
            by_cases hx : x = root
            · subst hx
              exact ⟨1, husA⟩
            · exact ⟨0, by rw [hothA x hx]; simp⟩
          have husAmem : ∀ x, toUserId ∈ folderUsersOf sA x
              ↔ (toUserId ∈ folderUsersOf s x ∨ x = root) := by
            intro x
            by_cases hx : x = root
            · subst hx
              rw [husA]
              simp
            · rw [hothA x hx]
              simp [hx]
          refine ⟨fun x => (shL x).trans ((hshB x).trans (hshA x)),
            fun x => (shfL x).trans ((hshfB x).trans (hfshA x)), ?_, ?_, ?_, ?_⟩
          · intro x
            obtain ⟨k1, hk1⟩ := hrepA x
            obtain ⟨k2, hk2⟩ := repL x
            refine ⟨k1 + k2, ?_⟩
            rw [hk2, husB x, hk1, List.append_assoc, List.replicate_add]
          · intro x
            obtain ⟨k1, hk1⟩ := hrepB x
            obtain ⟨k2, hk2⟩ := repfL x
            refine ⟨k1 + k2, ?_⟩
            rw [hk2, hk1, hfusA x, List.append_assoc, List.replicate_add]
          · intro x
            rw [memL x, husB x, husAmem x]
            rw [folderUnder_iff hreq]
            constructor
            · rintro ((hm | hroot) | ⟨c, hc, hU⟩)
              · exact Or.inl hm
              · exact Or.inr (Or.inl hroot)
              · refine Or.inr (Or.inr ⟨c, ?_, folderUnder_congr (fun y => (hshBs y).symm) hU⟩)
                rwa [← hfoldersA]
            · rintro (hm | (hroot | ⟨c, hc, hU⟩))
              · exact Or.inl (Or.inl hm)
              · exact Or.inl (Or.inr hroot)
              · refine Or.inr ⟨c, ?_, folderUnder_congr hshBs hU⟩
                rwa [hfoldersA]
          · intro x
            rw [memfL x, hmemB x, hfusA x]
            rw [fileUnder_iff hreq]
            constructor
            · rintro ((hm | hfile) | ⟨c, hc, hU⟩)
              · exact Or.inl hm
              · exact Or.inr (Or.inl (by rwa [← hfilesA]))
              · refine Or.inr (Or.inr ⟨c, ?_, fileUnder_congr (fun y => (hshBs y).symm) hU⟩)
                rwa [← hfoldersA]
            · rintro (hm | (hfile | ⟨c, hc, hU⟩))
              · exact Or.inl (Or.inl hm)
              · exact Or.inl (Or.inr (by rwa [hfilesA]))
              · refine Or.inr ⟨c, ?_, fileUnder_congr hshBs hU⟩
                rwa [hfoldersA]

/-- C5: a successful shareFolder adds toUserId to the users array of the target
folder and of every file and every folder transitively contained within it at
call time (via the child lists), and of no other node — structural fields and
every other user's memberships are untouched. -/
theorem C5_shareFolder_materializes (s s' : Store) (asUser folderId toUserId : String)
    (h : shareFolder s asUser folderId toUserId = .ok s') :
    (∀ x, folderShapeOf s' x = folderShapeOf s x)
    ∧ (∀ x, fileShapeOf s' x = fileShapeOf s x)
    ∧ (∀ u x, u ≠ toUserId → (u ∈ folderUsersOf s' x ↔ u ∈ folderUsersOf s x))
    ∧ (∀ u x, u ≠ toUserId → (u ∈ fileUsersOf s' x ↔ u ∈ fileUsersOf s x))
    ∧ (∀ x, toUserId ∈ folderUsersOf s' x
        ↔ (toUserId ∈ folderUsersOf s x ∨ FolderUnder s folderId x))
    ∧ (∀ x, toUserId ∈ fileUsersOf s' x
        ↔ (toUserId ∈ fileUsersOf s x ∨ FileUnder s folderId x)) := by
  cases hfo : getFolder s folderId with
  | none =>
    simp only [shareFolder, hfo] at h
    cases h
  | some fo =>
    by_cases ha : hasFolderAccess s asUser folderId = true
    case neg =>
      simp only [shareFolder, hfo, if_neg ha] at h
      cases h
    simp only [shareFolder, hfo, if_pos ha] at h
    obtain ⟨sh, shf, rep, repf, mem, memf⟩ :=
      shareRec_spec toUserId (s.folders.length + 1) s folderId s' h
    refine ⟨sh, shf, ?_, ?_, mem, memf⟩
    · intro u x hu
      obtain ⟨k, hk⟩ := rep x
      rw [hk]
      exact mem_append_replicate hu
    · intro u x hu
      obtain ⟨k, hk⟩ := repf x
      rw [hk]
      exact mem_append_replicate hu

/-- a two-level tree: folder r holds file fx and subfolder sub; sub holds fy. -/
def sampleStoreH : Store :=
  { files := [{ id := "fx", parentFolder := some "r" },
              { id := "fy", parentFolder := some "sub" }],
    folders := [{ id := "r", files := ["fx"], folders := ["sub"], users := ["o"] },
                { id := "sub", parentFolder := some "r", files := ["fy"] }] }

/-- sampleStoreH after o recursively shares r with b. -/
def sampleStoreH1 : Store :=
  { files := [{ id := "fx", parentFolder := some "r", users := ["b"] },
              { id := "fy", parentFolder := some "sub", users := ["b"] }],
    folders := [{ id := "r", files := ["fx"], folders := ["sub"], users := ["o", "b"] },
                { id := "sub", parentFolder := some "r", files := ["fy"], users := ["b"] }] }

theorem C5_shareFolder_materializes_witness :
    shareFolder sampleStoreH "o" "r" "b" = .ok sampleStoreH1
    ∧ "b" ∈ folderUsersOf sampleStoreH1 "sub"
    ∧ "b" ∈ fileUsersOf sampleStoreH1 "fy" :=
  have hrun : shareFolder sampleStoreH "o" "r" "b" = .ok sampleStoreH1 := by rfl
  have spec := C5_shareFolder_materializes sampleStoreH sampleStoreH1 "o" "r" "b" hrun
  have hsub : FolderUnder sampleStoreH "r" "sub" :=
    @FolderUnder.step sampleStoreH "r" "sub" "sub"
      { id := "r", files := ["fx"], folders := ["sub"], users := ["o"] }
      (by rfl) (by decide) (FolderUnder.refl "sub")
  have hfy : FileUnder sampleStoreH "r" "fy" :=
    @FileUnder.step sampleStoreH "r" "sub" "fy"
      { id := "r", files := ["fx"], folders := ["sub"], users := ["o"] }
      (by rfl) (by decide)
      (@FileUnder.here sampleStoreH "sub" "fy"
        { id := "sub", parentFolder := some "r", files := ["fy"] }
        (by rfl) (by decide))
  ⟨hrun, (spec.2.2.2.2.1 "sub").mpr (Or.inr hsub), (spec.2.2.2.2.2 "fy").mpr (Or.inr hfy)⟩

/-! Claim C6: infrastructure — parent-view transfer and termination. -/

theorem folderAccViewOf_foldersUpd (s : Store) (tid : String) (fl : List String) (x : String) :
    folderAccViewOf (updateFolderRow s tid (fun g => { g with folders := fl })) x
      = folderAccViewOf s x :=
  folderAccViewOf_updateFolderRow s tid (fun g => { g with folders := fl })
    (fun _ => rfl) (fun _ => rfl) (fun _ => rfl) x

theorem getFolder_isSome_iff_parentView (s : Store) (x : String) :
    (getFolder s x).isSome = (folderParentOf s x).isSome := by
  cases h : getFolder s x <;> simp [folderParentOf, h]

theorem acyclic_congr {s s' : Store}
    (h : ∀ x, folderParentOf s' x = folderParentOf s x) (hA : Acyclic s) : Acyclic s' := by
  intro x hcyc
  refine hA x (Relation.TransGen.mono ?_ hcyc)
  intro a b hr
  have : chainStep s' a = some b := hr
  rw [chainStep_congr h] at this
  exact this

theorem closed_congr {s s' : Store}
    (h : ∀ x, folderParentOf s' x = folderParentOf s x) (hC : ClosedParents s) :
    ClosedParents s' := by
  intro x p hp
  rw [h x] at hp
  have h2 := hC x p hp
  rw [getFolder_isSome_iff_parentView, h p, ← getFolder_isSome_iff_parentView]
  exact h2

theorem terminates_acyclic {s : Store}
    (hT : ∀ x, ∃ n, rootedFuel s n x = true) : Acyclic s := by
  intro x hcyc
  obtain ⟨m, hm⟩ := transGen_to_iter hcyc
  obtain ⟨n, hn⟩ := hT x
  have hfalse := iter_cycle_not_rooted s n x m hm
  rw [hn] at hfalse
  cases hfalse

theorem closedParents_of_bool {s : Store} (h : closedParentsB s = true) : ClosedParents s := by
  intro x p hp
  cases hg : getFolder s x with
  | none => rw [folderParentOf, hg] at hp; cases hp
  | some f =>
    rw [folderParentOf, hg] at hp
    simp only [Option.map_some'] at hp
    injection hp with hpe
    obtain ⟨hmem, _⟩ := getFolder_mem hg
    have h2 := (List.all_eq_true.mp h) f hmem
    rw [hpe] at h2
    exact h2

theorem folderParentOf_updateFolderRow (s : Store) (tid : String) (g : Folder → Folder)
    (hg : ∀ f, (g f).id = f.id) (hp : ∀ f, (g f).parentFolder = f.parentFolder) (x : String) :
    folderParentOf (updateFolderRow s tid g) x = folderParentOf s x := by
  unfold folderParentOf
  rw [getFolder_updateFolderRow s tid g hg]
  by_cases hx : x = tid
  · rw [if_pos hx]
    cases getFolder s x <;> simp [hp]
  · rw [if_neg hx]

theorem folderParentOf_setUsersU (s : Store) (tid : String) (us : List String) (x : String) :
    folderParentOf (updateFolderRow s tid (fun g => { g with users := us })) x
      = folderParentOf s x :=
  folderParentOf_updateFolderRow s tid (fun g => { g with users := us })
    (fun _ => rfl) (fun _ => rfl) x

theorem folderParentOf_foldersUpd (s : Store) (tid : String) (fl : List String) (x : String) :
    folderParentOf (updateFolderRow s tid (fun g => { g with folders := fl })) x
      = folderParentOf s x :=
  folderParentOf_updateFolderRow s tid (fun g => { g with folders := fl })
    (fun _ => rfl) (fun _ => rfl) x

theorem folderParentOf_insert {s : Store} {fo : Folder} {x : String} (hx : x ≠ fo.id) :
    folderParentOf { s with folders := s.folders ++ [fo] } x = folderParentOf s x := by
  unfold folderParentOf
  rw [getFolder_insert, if_neg (fun hc => hx hc.symm)]
  cases getFolder s x <;> rfl

theorem folderParentOf_setParent (s : Store) (fid : String) (pf : Option String) (x : String) :
    folderParentOf (updateFolderRow s fid (fun g => { g with parentFolder := pf })) x
      = if x = fid then (getFolder s x).map (fun _ => pf) else folderParentOf s x := by
  unfold folderParentOf
  rw [getFolder_updateFolderRow s fid (fun g => { g with parentFolder := pf }) (fun _ => rfl)]
  by_cases hx : x = fid
  · rw [if_pos hx, if_pos hx]
    cases getFolder s x <;> simp
  · rw [if_neg hx, if_neg hx]

theorem createFolder_ok_elim {s s' : Store} {fo : Folder} {asUser newId : String}
    {name : Option String} {parentFolder : Option String}
    (h : createFolder s asUser name parentFolder newId = .ok (s', fo)) :
    getFolder s newId = none
    ∧ (∀ p, parentFolder = some p → hasFolderAccess s asUser p = true)
    ∧ fo.id = newId
    ∧ folderParentOf s' newId = some parentFolder
    ∧ (∀ x, x ≠ newId → folderParentOf s' x = folderParentOf s x) := by
  cases parentFolder with
  | none =>
    by_cases hfresh : (getFolder s newId).isSome
    · simp only [createFolder, dbCreateFolder, if_pos hfresh] at h
      cases h
    · have hfresh2 : getFolder s newId = none := Option.not_isSome_iff_eq_none.mp hfresh
      have hg1 : getFolder { s with folders := s.folders ++
          [{ id := newId, name := name, parentFolder := none }] } newId
          = some { id := newId, name := name, parentFolder := none } := by
        rw [getFolder_insert, hfresh2, if_pos rfl]
        rfl
      simp only [createFolder, dbCreateFolder, if_neg hfresh, addToFolderUsers, hg1] at h
      injection h with hpair
      injection hpair with hs' hfo
      subst hs'
      subst hfo
      refine ⟨hfresh2, ?_, rfl, ?_, ?_⟩
      · intro p hp
        cases hp
      · unfold folderParentOf
        rw [getFolder_setUsers, if_pos rfl, hg1]
        rfl
      · intro x hx
        rw [folderParentOf_setUsersU]
        exact folderParentOf_insert hx
  | some pf =>
    by_cases ha : hasFolderAccess s asUser pf = true
    case neg =>
      simp only [createFolder, if_neg ha] at h
      cases h
    by_cases hfresh : (getFolder s newId).isSome
    · simp only [createFolder, if_pos ha, dbCreateFolder, if_pos hfresh] at h
      cases h
    · have hfresh2 : getFolder s newId = none := Option.not_isSome_iff_eq_none.mp hfresh
      obtain ⟨q, hq⟩ := hasFolderAccess_fold_some ha
      have hne : newId ≠ pf := by
        intro hc
        rw [hc] at hfresh2
        rw [hfresh2] at hq
        cases hq
      have hq1 : getFolder { s with folders := s.folders ++
          [{ id := newId, name := name, parentFolder := some pf }] } pf = some q := by
        rw [getFolder_insert, hq]
        rfl
      have hg1 : getFolder { s with folders := s.folders ++
          [{ id := newId, name := name, parentFolder := some pf }] } newId
          = some { id := newId, name := name, parentFolder := some pf } := by
        rw [getFolder_insert, hfresh2, if_pos rfl]
        rfl
      have hg2 : getFolder (updateFolderRow { s with folders := s.folders ++
          [{ id := newId, name := name, parentFolder := some pf }] } pf
          (fun g => { g with folders := q.folders ++ [newId] })) newId
          = some { id := newId, name := name, parentFolder := some pf } := by
        rw [getFolder_updateFolderRow { s with folders := s.folders ++
            [{ id := newId, name := name, parentFolder := some pf }] } pf
            (fun g => { g with folders := q.folders ++ [newId] }) (fun _ => rfl),
          if_neg hne]
        exact hg1
      simp only [createFolder, if_pos ha, dbCreateFolder, if_neg hfresh, addToFolderFolders,
        hq1, addToFolderUsers, hg2] at h
      injection h with hpair
      injection hpair with hs' hfo
      subst hs'
      subst hfo
      refine ⟨hfresh2, ?_, rfl, ?_, ?_⟩
      · intro p hp
        injection hp with hpe
        rwa [← hpe]
      · unfold folderParentOf
        rw [getFolder_setUsers, if_pos rfl, hg2]
        rfl
      · intro x hx
        rw [folderParentOf_setUsersU, folderParentOf_foldersUpd]
        exact folderParentOf_insert hx

theorem moveFolder_ok_elim {s s' : Store} {asUser folderId : String} {toFolderId : Option String}
    (h : moveFolder s asUser folderId toFolderId = .ok s') :
    ∃ fo, getFolder s folderId = some fo ∧ hasFolderAccess s asUser folderId = true
      ∧ toFolderId ≠ some folderId
      ∧ (∀ dest, toFolderId = some dest →
          circularCheck s folderId (s.folders.length + 1) (getFolder s dest) = false
          ∧ hasFolderAccess s asUser dest = true)
      ∧ folderParentOf s' folderId = some toFolderId
      ∧ (∀ x, x ≠ folderId → folderParentOf s' x = folderParentOf s x) := by
  cases hfo : getFolder s folderId with
  | none =>
    simp only [moveFolder, hfo] at h
    cases h
  | some fo =>
    by_cases ha : hasFolderAccess s asUser folderId = true
    case neg =>
      simp only [moveFolder, hfo, if_neg ha] at h
      cases h
    by_cases hself : toFolderId = some folderId
    · simp only [moveFolder, hfo, if_pos ha, if_pos hself] at h
      cases h
    refine ⟨fo, rfl, ha, hself, ?_⟩
    have hset : setFolderParentFolder s folderId toFolderId
        = .ok (updateFolderRow s folderId
            (fun g => { g with parentFolder := toFolderId })) := by
      unfold setFolderParentFolder
      rw [hfo]
    have hpar1 : folderParentOf (updateFolderRow s folderId
        (fun g => { g with parentFolder := toFolderId })) folderId = some toFolderId := by
      rw [folderParentOf_setParent, if_pos rfl, hfo]
      rfl
    have hpar2 : ∀ x, x ≠ folderId → folderParentOf (updateFolderRow s folderId
        (fun g => { g with parentFolder := toFolderId })) x = folderParentOf s x := by
      intro x hx
      rw [folderParentOf_setParent, if_neg hx]
    cases toFolderId with
    | none =>
      simp only [moveFolder, hfo, if_pos ha, if_neg hself, hset] at h
      refine ⟨?_, ?_⟩
      · intro dest hd
        cases hd
      cases hop : fo.parentFolder with
      | none =>
        simp only [hop] at h
        injection h with hs'
        subst hs'
        exact ⟨hpar1, hpar2⟩
      | some oldParent =>
        simp only [hop] at h
        unfold removeFromFolderFolders at h
        cases hq : getFolder (updateFolderRow s folderId
            (fun g => { g with parentFolder := none })) oldParent with
        | none =>
          simp only [hq] at h
          cases h
        | some q =>
          simp only [hq] at h
          injection h with hs'
          subst hs'
          constructor
          · rw [folderParentOf_foldersUpd]
            exact hpar1
          · intro x hx
            rw [folderParentOf_foldersUpd]
            exact hpar2 x hx
    | some dest =>
      by_cases hcirc : circularCheck s folderId (s.folders.length + 1) (getFolder s dest) = true
      · simp only [moveFolder, hfo, if_pos ha, if_neg hself, hcirc, if_true] at h
        cases h
      have hcirc2 : circularCheck s folderId (s.folders.length + 1) (getFolder s dest)
          = false := by
        cases hb : circularCheck s folderId (s.folders.length + 1) (getFolder s dest) with
        | true => exact absurd hb hcirc
        | false => rfl
      by_cases hda : hasFolderAccess s asUser dest = true
      case neg =>
        simp only [moveFolder, hfo, if_pos ha, if_neg hself, hcirc2, Bool.false_eq_true,
          if_false, if_neg hda] at h
        cases h
      simp only [moveFolder, hfo, if_pos ha, if_neg hself, hcirc2, Bool.false_eq_true,
        if_false, if_pos hda, hset] at h
      refine ⟨?_, ?_⟩
      · intro d hd
        injection hd with hde
        subst hde
        exact ⟨hcirc2, hda⟩
      cases hop : fo.parentFolder with
      | none =>
        simp only [hop] at h
        unfold addToFolderFolders at h
        cases hq : getFolder (updateFolderRow s folderId
            (fun g => { g with parentFolder := some dest })) dest with
        | none =>
          simp only [hq] at h
          cases h
        | some q =>
          simp only [hq] at h
          injection h with hs'
          subst hs'
          constructor
          · rw [folderParentOf_foldersUpd]
            exact hpar1
          · intro x hx
            rw [folderParentOf_foldersUpd]
            exact hpar2 x hx
      | some oldParent =>
        simp only [hop] at h
        unfold removeFromFolderFolders at h
        cases hq : getFolder (updateFolderRow s folderId
            (fun g => { g with parentFolder := some dest })) oldParent with
        | none =>
          simp only [hq] at h
          cases h
        | some q =>
          simp only [hq] at h
          unfold addToFolderFolders at h
          cases hq2 : getFolder (updateFolderRow (updateFolderRow s folderId
              (fun g => { g with parentFolder := some dest })) oldParent
              (fun g => { g with folders := q.folders.filter (fun i => i ≠ folderId) }))
              dest with
          | none =>
            simp only [hq2] at h
            cases h
          | some q2 =>
            simp only [hq2] at h
            injection h with hs'
            subst hs'
            constructor
            · rw [folderParentOf_foldersUpd, folderParentOf_foldersUpd]
              exact hpar1
            · intro x hx
              rw [folderParentOf_foldersUpd, folderParentOf_foldersUpd]
              exact hpar2 x hx

theorem circularCheck_complete (s : Store) (fid : String) :
    ∀ fuel x, rootedFuel s fuel x = true → (∃ j, iterP s (j + 1) x = some fid) →
      circularCheck s fid fuel (getFolder s x) = true := by
  intro fuel
  induction fuel with
  | zero =>
    intro x h _
    simp [rootedFuel] at h
  | succ n ih =>
    rintro x h ⟨j, hj⟩
    cases hg : getFolder s x with
    | none =>
      have hc : chainStep s x = none := by simp [chainStep, hg]
      rw [iterP_succ, hc] at hj
      cases hj
    | some f =>
      cases hp : f.parentFolder with
      | none =>
        have hc : chainStep s x = none := by simp [chainStep, hg, hp]
        rw [iterP_succ, hc] at hj
        cases hj
      | some p =>
        have hc : chainStep s x = some p := by simp [chainStep, hg, hp]
        by_cases hpf : p = fid
        · simp [circularCheck, hp, hpf]
        · rw [iterP_succ, hc] at hj
          cases j with
          | zero =>
            injection hj with hje
            exact absurd hje hpf
          | succ j2 =>
            have hroot : rootedFuel s n p = true := by
              simpa [rootedFuel, hg, hp] using h
            have hrec := ih p hroot ⟨j2, hj⟩
            simp [circularCheck, hp, hpf, hrec]

theorem circularCheck_sound (s : Store) (fid : String) :
    ∀ fuel x, rootedFuel s fuel x = true →
      circularCheck s fid fuel (getFolder s x) = false →
      ∀ j, iterP s (j + 1) x ≠ some fid := by
  intro fuel
  induction fuel with
  | zero =>
    intro x h
    simp [rootedFuel] at h
  | succ n ih =>
    intro x h hcf j hj
    cases hg : getFolder s x with
    | none =>
      have hc : chainStep s x = none := by simp [chainStep, hg]
      rw [iterP_succ, hc] at hj
      cases hj
    | some f =>
      cases hp : f.parentFolder with
      | none =>
        have hc : chainStep s x = none := by simp [chainStep, hg, hp]
        rw [iterP_succ, hc] at hj
        cases hj
      | some p =>
        have hc : chainStep s x = some p := by simp [chainStep, hg, hp]
        rw [hg] at hcf
        by_cases hpf : p = fid
        · simp [circularCheck, hp, hpf] at hcf
        · have hcf2 : circularCheck s fid n (getFolder s p) = false := by
            simpa [circularCheck, hp, hpf] using hcf
          have hroot : rootedFuel s n p = true := by
            simpa [rootedFuel, hg, hp] using h
          rw [iterP_succ, hc] at hj
          cases j with
          | zero =>
            injection hj with hje
            exact hpf hje
          | succ j2 => exact ih p hroot hcf2 j2 hj

/-- termination of the ancestor walk from `x`, with some amount of fuel. -/
def Term (s : Store) (x : String) : Prop :=
  ∃ n, rootedFuel s n x = true

theorem term_acyclic {s : Store} (hT : ∀ x, Term s x) : Acyclic s :=
  terminates_acyclic hT

theorem rootedFuel_top_none {s : Store} {x : String} (hg : getFolder s x = none) (n : Nat) :
    rootedFuel s (n + 1) x = true := by
  simp [rootedFuel, hg]

theorem rootedFuel_top_root {s : Store} {x : String} {f : Folder}
    (hg : getFolder s x = some f) (hp : f.parentFolder = none) (n : Nat) :
    rootedFuel s (n + 1) x = true := by
  simp [rootedFuel, hg, hp]

theorem rootedFuel_step {s : Store} {x p : String} {f : Folder}
    (hg : getFolder s x = some f) (hp : f.parentFolder = some p) (n : Nat) :
    rootedFuel s (n + 1) x = rootedFuel s n p := by
  simp only [rootedFuel, hg, hp]

theorem moveFolder_preserves {s s' : Store} {asUser folderId : String}
    {toFolderId : Option String}
    (hA : Acyclic s) (hC : ClosedParents s)
    (h : moveFolder s asUser folderId toFolderId = .ok s') :
    Acyclic s' ∧ ClosedParents s' := by
  obtain ⟨fo, hfo, ha, hself, hguard, hparSelf, hparOther⟩ := moveFolder_ok_elim h
  have hR : Rooted s := acyclic_rooted hA
  obtain ⟨fSelf, hgSelf, hpSelf⟩ :
      ∃ f', getFolder s' folderId = some f' ∧ f'.parentFolder = toFolderId := by
    cases hg' : getFolder s' folderId with
    | none => rw [folderParentOf, hg'] at hparSelf; cases hparSelf
    | some f' =>
      rw [folderParentOf, hg'] at hparSelf
      simp only [Option.map_some'] at hparSelf
      injection hparSelf with hpe
      exact ⟨f', rfl, hpe⟩
  have hview : ∀ y, y ≠ folderId →
      ((getFolder s' y = none ∧ getFolder s y = none)
        ∨ ∃ f f', getFolder s y = some f ∧ getFolder s' y = some f'
            ∧ f'.parentFolder = f.parentFolder) := by
    intro y hy
    have hv := hparOther y hy
    unfold folderParentOf at hv
    cases hg : getFolder s y with
    | none =>
      rw [hg] at hv
      cases hg' : getFolder s' y with
      | none => exact Or.inl ⟨rfl, rfl⟩
      | some f' =>
        rw [hg'] at hv
        simp at hv
    | some f =>
      rw [hg] at hv
      cases hg' : getFolder s' y with
      | none =>
        rw [hg'] at hv
        simp at hv
      | some f' =>
        rw [hg'] at hv
        simp only [Option.map_some'] at hv
        injection hv with hpe
        exact Or.inr ⟨f, f', rfl, rfl, hpe⟩
  have keep : ∀ fuel y, y ≠ folderId → (∀ j, iterP s (j + 1) y ≠ some folderId) →
      rootedFuel s fuel y = true → rootedFuel s' fuel y = true := by
    intro fuel
    induction fuel with
    | zero =>
      intro y _ _ h0
      simp [rootedFuel] at h0
    | succ n ih =>
      intro y hy hnot hr
      rcases hview y hy with ⟨hg', hg⟩ | ⟨f, f', hg, hg', hpe⟩
      · exact rootedFuel_top_none hg' n
      · cases hp : f.parentFolder with
        | none => exact rootedFuel_top_root hg' (by rw [hpe, hp]) n
        | some p =>
          have hc : chainStep s y = some p := by simp [chainStep, hg, hp]
          have hpne : p ≠ folderId := by
            intro hceq
            exact hnot 0 (by rw [iterP_succ, hc, hceq]; rfl)
          have hnotp : ∀ j, iterP s (j + 1) p ≠ some folderId := by
            intro j hj
            exact hnot (j + 1) (by rw [iterP_succ, hc]; exact hj)
          have hrp : rootedFuel s n p = true := by
            simpa [rootedFuel, hg, hp] using hr
          have hstep := ih p hpne hnotp hrp
          rw [rootedFuel_step hg' (by rw [hpe, hp])]
          exact hstep
  have hTermSelf : Term s' folderId := by
    cases hto : toFolderId with
    | none =>
      refine ⟨1, ?_⟩
      rw [hto] at hpSelf
      exact rootedFuel_top_root hgSelf hpSelf 0
    | some d =>
      have hdne : d ≠ folderId := by
        intro hc
        rw [hto, hc] at hself
        exact hself rfl
      obtain ⟨hcirc, _⟩ := hguard d hto
      have hnot := circularCheck_sound s folderId (s.folders.length + 1) d (hR d) hcirc
      have hkeep := keep (s.folders.length + 1) d hdne hnot (hR d)
      refine ⟨s.folders.length + 1 + 1, ?_⟩
      rw [hto] at hpSelf
      rw [rootedFuel_step hgSelf hpSelf]
      exact hkeep
  have hM : ∀ fuel y, y ≠ folderId → rootedFuel s fuel y = true → Term s' y := by
    intro fuel
    induction fuel with
    | zero =>
      intro y _ h0
      simp [rootedFuel] at h0
    | succ n ih =>
      intro y hy hr
      rcases hview y hy with ⟨hg', hg⟩ | ⟨f, f', hg, hg', hpe⟩
      · exact ⟨1, rootedFuel_top_none hg' 0⟩
      · cases hp : f.parentFolder with
        | none => exact ⟨1, rootedFuel_top_root hg' (by rw [hpe, hp]) 0⟩
        | some p =>
          have hrp : rootedFuel s n p = true := by
            simpa [rootedFuel, hg, hp] using hr
          by_cases hpf : p = folderId
          · obtain ⟨m, hm⟩ := hTermSelf
            refine ⟨m + 1, ?_⟩
            rw [rootedFuel_step hg' (by rw [hpe, hp]), hpf]
            exact hm
          · obtain ⟨m, hm⟩ := ih p hpf hrp
            refine ⟨m + 1, ?_⟩
            rw [rootedFuel_step hg' (by rw [hpe, hp])]
            exact hm
  have hTall : ∀ x, Term s' x := by
    intro x
    by_cases hx : x = folderId
    · rw [hx]
      exact hTermSelf
    · exact hM (s.folders.length + 1) x hx (hR x)
  refine ⟨term_acyclic hTall, ?_⟩
  intro x p hp
  by_cases hx : x = folderId
  · rw [hx, folderParentOf, hgSelf] at hp
    simp only [Option.map_some'] at hp
    injection hp with hpe
    rw [hpSelf] at hpe
    cases hto : toFolderId with
    | none => rw [hto] at hpe; cases hpe
    | some d =>
      rw [hto] at hpe
      injection hpe with hde
      obtain ⟨_, hda⟩ := hguard d hto
      obtain ⟨q, hq⟩ := hasFolderAccess_fold_some hda
      have hdne : d ≠ folderId := by
        intro hc
        rw [hto, hc] at hself
        exact hself rfl
      rw [← hde]
      rcases hview d hdne with ⟨_, hnone⟩ | ⟨f, f', _, hg', _⟩
      · rw [hnone] at hq
        cases hq
      · simp [hg']
  · have hv := hparOther x hx
    rw [hv] at hp
    have hsome := hC x p hp
    by_cases hpf : p = folderId
    · subst hpf
      simp [hgSelf]
    · rcases hview p hpf with ⟨_, hnone⟩ | ⟨f, f', _, hg', _⟩
      · rw [hnone] at hsome
        cases hsome
      · simp [hg']

/-! Parent-view preservation of the remaining operations: every request other
than createFolder and moveFolder leaves the folder parent map untouched. -/

theorem folderParentOf_updateFileRow (s : Store) (tid : String) (g : File → File) (x : String) :
    folderParentOf (updateFileRow s tid g) x = folderParentOf s x := by
  unfold folderParentOf
  rw [getFolder_updateFileRow]

theorem folderParentOf_filesUpd (s : Store) (tid : String) (fl : List String) (x : String) :
    folderParentOf (updateFolderRow s tid (fun g => { g with files := fl })) x
      = folderParentOf s x :=
  folderParentOf_updateFolderRow s tid (fun g => { g with files := fl })
    (fun _ => rfl) (fun _ => rfl) x

theorem setFileParentFolder_parents {s s' : Store} {fid : String} {pf : Option String}
    (h : setFileParentFolder s fid pf = .ok s') (x : String) :
    folderParentOf s' x = folderParentOf s x := by
  cases hg : getFile s fid with
  | none => simp only [setFileParentFolder, hg] at h; cases h
  | some f =>
    simp only [setFileParentFolder, hg] at h
    injection h with hs
    rw [← hs]
    exact folderParentOf_updateFileRow s fid _ x

theorem addToFileUsers_parents {s s' : Store} {fid u : String}
    (h : addToFileUsers s fid u = .ok s') (x : String) :
    folderParentOf s' x = folderParentOf s x := by
  cases hg : getFile s fid with
  | none => simp only [addToFileUsers, hg] at h; cases h
  | some f =>
    simp only [addToFileUsers, hg] at h
    injection h with hs
    rw [← hs]
    exact folderParentOf_updateFileRow s fid _ x

theorem addToFolderUsers_parents {s s' : Store} {fid u : String}
    (h : addToFolderUsers s fid u = .ok s') (x : String) :
    folderParentOf s' x = folderParentOf s x := by
  cases hg : getFolder s fid with
  | none => simp only [addToFolderUsers, hg] at h; cases h
  | some f =>
    simp only [addToFolderUsers, hg] at h
    injection h with hs
    rw [← hs]
    exact folderParentOf_setUsersU s fid (f.users ++ [u]) x

theorem addToFolderFiles_parents {s s' : Store} {fid fl : String}
    (h : addToFolderFiles s fid fl = .ok s') (x : String) :
    folderParentOf s' x = folderParentOf s x := by
  cases hg : getFolder s fid with
  | none => simp only [addToFolderFiles, hg] at h; cases h
  | some f =>
    simp only [addToFolderFiles, hg] at h
    injection h with hs
    rw [← hs]
    exact folderParentOf_filesUpd s fid (f.files ++ [fl]) x

theorem removeFromFolderFiles_parents {s s' : Store} {fid fl : String}
    (h : removeFromFolderFiles s fid fl = .ok s') (x : String) :
    folderParentOf s' x = folderParentOf s x := by
  cases hg : getFolder s fid with
  | none => simp only [removeFromFolderFiles, hg] at h; cases h
  | some f =>
    simp only [removeFromFolderFiles, hg] at h
    injection h with hs
    rw [← hs]
    exact folderParentOf_filesUpd s fid (f.files.filter (fun i => i ≠ fl)) x

theorem createUser_parents {s : Store} {pr : Store × UserRec} {newId : String}
    (h : createUser s newId = .ok pr) (x : String) :
    folderParentOf pr.1 x = folderParentOf s x := by
  obtain ⟨s1, u⟩ := pr
  by_cases hc : (getUser s newId).isSome
  · simp only [createUser, dbCreateUser, if_pos hc] at h
    cases h
  · simp only [createUser, dbCreateUser, if_neg hc] at h
    injection h with hpr
    injection hpr with hs hu
    rw [← hs]
    rfl

theorem dbCreateFile_parents {s : Store} {pr : Store × File} {newId : String}
    {name contents : Option String}
    (h : dbCreateFile s newId name contents = .ok pr) (x : String) :
    folderParentOf pr.1 x = folderParentOf s x := by
  obtain ⟨s1, f⟩ := pr
  by_cases hc : (getFile s newId).isSome
  · simp only [dbCreateFile, if_pos hc] at h
    cases h
  · simp only [dbCreateFile, if_neg hc] at h
    injection h with hpr
    injection hpr with hs hf
    rw [← hs]
    unfold folderParentOf
    rw [getFolder_insertFile]

theorem createFile_parents {s : Store} {pr : Store × File} {asUser newId : String}
    {name contents parentFolder : Option String}
    (h : createFile s asUser name contents parentFolder newId = .ok pr) (x : String) :
    folderParentOf pr.1 x = folderParentOf s x := by
  cases parentFolder with
  | none =>
    simp only [createFile] at h
    cases hdb : dbCreateFile s newId name contents with
    | error e => simp only [hdb] at h; cases h
    | ok p1 =>
      obtain ⟨s1, f⟩ := p1
      simp only [hdb] at h
      cases haf : addToFileUsers s1 f.id asUser with
      | error e => simp only [haf] at h; cases h
      | ok s2 =>
        simp only [haf] at h
        injection h with hpr
        rw [← hpr]
        rw [show ((s2, f) : Store × File).1 = s2 from rfl]
        rw [addToFileUsers_parents haf x]
        exact dbCreateFile_parents hdb x
  | some pf =>
    by_cases ha : hasFolderAccess s asUser pf = true
    case neg => simp only [createFile, if_neg ha] at h; cases h
    simp only [createFile, if_pos ha] at h
    cases hdb : dbCreateFile s newId name contents with
    | error e => simp only [hdb] at h; cases h
    | ok p1 =>
      obtain ⟨s1, f⟩ := p1
      simp only [hdb] at h
      cases hsp : setFileParentFolder s1 f.id pf with
      | error e => simp only [hsp] at h; cases h
      | ok s2 =>
        simp only [hsp] at h
        cases haff : addToFolderFiles s2 pf f.id with
        | error e => simp only [haff] at h; cases h
        | ok s3 =>
          simp only [haff] at h
          cases hafu : addToFileUsers s3 f.id asUser with
          | error e => simp only [hafu] at h; cases h
          | ok s4 =>
            simp only [hafu] at h
            injection h with hpr
            rw [← hpr]
            rw [show ((s4, f) : Store × File).1 = s4 from rfl]
            rw [addToFileUsers_parents hafu x, addToFolderFiles_parents haff x,
              setFileParentFolder_parents hsp x]
            exact dbCreateFile_parents hdb x

theorem moveFile_parents {s s' : Store} {asUser fileId : String} {toFolderId : Option String}
    (h : moveFile s asUser fileId toFolderId = .ok s') (x : String) :
    folderParentOf s' x = folderParentOf s x := by
  cases hg : getFile s fileId with
  | none => simp only [moveFile, hg] at h; cases h
  | some file =>
    by_cases ha : hasFileAccess s asUser fileId = true
    case neg => simp only [moveFile, hg, if_neg ha] at h; cases h
    cases hdest : toFolderId with
    | some dest =>
      by_cases hda : hasFolderAccess s asUser dest = true
      case neg => simp only [moveFile, hg, if_pos ha, hdest, if_neg hda] at h; cases h
      simp only [moveFile, hg, if_pos ha, hdest, if_pos hda] at h
      cases hsp : setFileParentFolder s fileId (some dest) with
      | error e => simp only [hsp] at h; cases h
      | ok s1 =>
        simp only [hsp] at h
        cases hop : file.parentFolder with
        | some oldParent =>
          simp only [hop] at h
          cases hrm : removeFromFolderFiles s1 oldParent fileId with
          | error e => simp only [hrm] at h; cases h
          | ok s2 =>
            simp only [hrm] at h
            rw [addToFolderFiles_parents h x, removeFromFolderFiles_parents hrm x]
            exact setFileParentFolder_parents hsp x
        | none =>
          simp only [hop] at h
          rw [addToFolderFiles_parents h x]
          exact setFileParentFolder_parents hsp x
    | none =>
      simp only [moveFile, hg, if_pos ha, hdest] at h
      cases hsp : setFileParentFolder s fileId none with
      | error e => simp only [hsp] at h; cases h
      | ok s1 =>
        simp only [hsp] at h
        cases hop : file.parentFolder with
        | some oldParent =>
          simp only [hop] at h
          rw [removeFromFolderFiles_parents h x]
          exact setFileParentFolder_parents hsp x
        | none =>
          simp only [hop] at h
          injection h with hs
          rw [← hs]
          exact setFileParentFolder_parents hsp x

theorem shareFile_parents {s s' : Store} {asUser fileId toUserId : String}
    (h : shareFile s asUser fileId toUserId = .ok s') (x : String) :
    folderParentOf s' x = folderParentOf s x := by
  cases hg : getFile s fileId with
  | none => simp only [shareFile, hg] at h; cases h
  | some f =>
    by_cases ha : hasFileAccess s asUser fileId = true
    case neg => simp only [shareFile, hg, if_neg ha] at h; cases h
    simp only [shareFile, hg, if_pos ha] at h
    exact addToFileUsers_parents h x

theorem addFilesUsers_parents (toU : String) :
    ∀ (l : List String) (s s' : Store), addFilesUsers toU s l = .ok s' →
      ∀ x, folderParentOf s' x = folderParentOf s x := by
  intro l
  induction l with
  | nil =>
    intro s s' h x
    simp only [addFilesUsers] at h
    injection h with hs
    rw [← hs]
  | cons fid rest ih =>
    intro s s' h x
    simp only [addFilesUsers] at h
    cases haf : addToFileUsers s fid toU with
    | error e => simp only [haf] at h; cases h
    | ok s1 =>
      simp only [haf] at h
      rw [ih s1 s' h x]
      exact addToFileUsers_parents haf x

theorem shareRecList_parents (step : Store → String → Except Code Store)
    (hstep : ∀ t t' sub, step t sub = .ok t' → ∀ x, folderParentOf t' x = folderParentOf t x) :
    ∀ (l : List String) (s s' : Store), shareRecList step s l = .ok s' →
      ∀ x, folderParentOf s' x = folderParentOf s x := by
  intro l
  induction l with
  | nil =>
    intro s s' h x
    simp only [shareRecList] at h
    injection h with hs
    rw [← hs]
  | cons sub rest ih =>
    intro s s' h x
    simp only [shareRecList] at h
    cases hst : step s sub with
    | error e => simp only [hst] at h; cases h
    | ok s1 =>
      simp only [hst] at h
      rw [ih s1 s' h x]
      exact hstep s s1 sub hst x

theorem shareRec_parents (toU : String) :
    ∀ (fuel : Nat) (s : Store) (fid : String) (s' : Store),
      shareRec toU fuel s fid = .ok s' →
      ∀ x, folderParentOf s' x = folderParentOf s x := by
  intro fuel
  induction fuel with
  | zero =>
    intro s fid s' h x
    simp only [shareRec] at h
    cases h
  | succ n ih =>
    intro s fid s' h x
    simp only [shareRec] at h
    cases ha : addToFolderUsers s fid toU with
    | error e => simp only [ha] at h; cases h
    | ok s1 =>
      simp only [ha] at h
      cases hg : getFolder s1 fid with
      | none =>
        simp only [hg] at h
        injection h with hs
        rw [← hs]
        exact addToFolderUsers_parents ha x
      | some folder =>
        simp only [hg] at h
        cases haf : addFilesUsers toU s1 folder.files with
        | error e => simp only [haf] at h; cases h
        | ok s2 =>
          simp only [haf] at h
          rw [shareRecList_parents (fun st sub => shareRec toU n st sub)
            (fun t t' sub hh => ih t sub t' hh) folder.folders s2 s' h x]
          rw [addFilesUsers_parents toU folder.files s1 s2 haf x]
          exact addToFolderUsers_parents ha x

theorem shareFolder_parents {s s' : Store} {asUser folderId toUserId : String}
    (h : shareFolder s asUser folderId toUserId = .ok s') (x : String) :
    folderParentOf s' x = folderParentOf s x := by
  cases hg : getFolder s folderId with
  | none => simp only [shareFolder, hg] at h; cases h
  | some fo =>
    by_cases ha : hasFolderAccess s asUser folderId = true
    case neg => simp only [shareFolder, hg, if_neg ha] at h; cases h
    simp only [shareFolder, hg, if_pos ha] at h
    exact shareRec_parents toUserId (s.folders.length + 1) s folderId s' h x

/-! Acyclicity preservation for createFolder, and for whole request sequences. -/

theorem transGen_target_ne {r : String → String → Prop} {z : String}
    (hno : ∀ a b, r a b → b ≠ z) {x y : String} (h : Relation.TransGen r x y) : y ≠ z := by
  induction h with
  | single hr => exact hno _ _ hr
  | tail _ hr _ => exact hno _ _ hr

theorem transGen_avoid {r r' : String → String → Prop} {z : String}
    (hno : ∀ a b, r' a b → b ≠ z)
    (hsub : ∀ a b, r' a b → a ≠ z → r a b)
    {x y : String} (h : Relation.TransGen r' x y) : x ≠ z → Relation.TransGen r x y := by
  induction h using Relation.TransGen.head_induction_on with
  | base hr => exact fun hx => Relation.TransGen.single (hsub _ _ hr hx)
  | ih hr ht ihh =>
    intro hx
    exact Relation.TransGen.head (hsub _ _ hr hx) (ihh (hno _ _ hr))

theorem createFolder_preserves {s s' : Store} {fo : Folder} {asUser newId : String}
    {name parentFolder : Option String}
    (hA : Acyclic s) (hC : ClosedParents s)
    (h : createFolder s asUser name parentFolder newId = .ok (s', fo)) :
    Acyclic s' ∧ ClosedParents s' := by
  obtain ⟨hfresh, hacc, hfoid, hparNew, hparOther⟩ := createFolder_ok_elim h
  have hno : ∀ a b, parentRel s' a b → b ≠ newId := by
    intro a b hr hb
    rw [hb] at hr
    by_cases hax : a = newId
    · have hco : chainStep s' a = some newId := hr
      rw [hax, chainStep_eq_join, hparNew] at hco
      simp only [Option.join] at hco
      have hap := hacc newId hco
      obtain ⟨q, hq⟩ := hasFolderAccess_fold_some hap
      rw [hfresh] at hq
      cases hq
    · have hco : chainStep s' a = some newId := hr
      rw [chainStep_eq_join, hparOther a hax, ← chainStep_eq_join] at hco
      obtain ⟨f, hf, hp⟩ := chainStep_some hco
      have hcl := hC a newId (by rw [folderParentOf, hf]; simp [hp])
      rw [hfresh] at hcl
      cases hcl
  have hsub : ∀ a b, parentRel s' a b → a ≠ newId → parentRel s a b := by
    intro a b hr ha
    have hco : chainStep s' a = some b := hr
    rw [chainStep_eq_join, hparOther a ha, ← chainStep_eq_join] at hco
    exact hco
  constructor
  · intro x hcyc
    have hxne : x ≠ newId := transGen_target_ne hno hcyc
    exact hA x (transGen_avoid hno hsub hcyc hxne)
  · intro x p hp
    rw [getFolder_isSome_iff_parentView]
    by_cases hx : x = newId
    · rw [hx, hparNew] at hp
      injection hp with hpe
      have hap := hacc p hpe
      obtain ⟨q, hq⟩ := hasFolderAccess_fold_some hap
      have hpne : p ≠ newId := by
        intro hc
        rw [hc, hfresh] at hq
        cases hq
      rw [hparOther p hpne]
      simp [folderParentOf, hq]
    · rw [hparOther x hx] at hp
      have h2 := hC x p hp
      by_cases hpn : p = newId
      · rw [hpn, hparNew]
        simp
      · rw [hparOther p hpn]
        rw [getFolder_isSome_iff_parentView] at h2
        exact h2

theorem applyOp_preserves {s s' : Store} {op : Op}
    (hA : Acyclic s) (hC : ClosedParents s) (h : applyOp s op = .ok s') :
    Acyclic s' ∧ ClosedParents s' := by
  cases op with
  | createUser newId =>
    cases hc : createUser s newId with
    | error e => simp only [applyOp, hc, Except.map] at h; cases h
    | ok pr =>
      simp only [applyOp, hc, Except.map] at h
      injection h with hs
      have hpar : ∀ x, folderParentOf s' x = folderParentOf s x := by
        intro x
        rw [← hs]
        exact createUser_parents hc x
      exact ⟨acyclic_congr hpar hA, closed_congr hpar hC⟩
  | createFile a n c pf newId =>
    cases hc : createFile s a n c pf newId with
    | error e => simp only [applyOp, hc, Except.map] at h; cases h
    | ok pr =>
      simp only [applyOp, hc, Except.map] at h
      injection h with hs
      have hpar : ∀ x, folderParentOf s' x = folderParentOf s x := by
        intro x
        rw [← hs]
        exact createFile_parents hc x
      exact ⟨acyclic_congr hpar hA, closed_congr hpar hC⟩
  | getFile a fid =>
    cases hc : getFileOp s a fid with
    | error e => simp only [applyOp, hc, Except.map] at h; cases h
    | ok f =>
      simp only [applyOp, hc, Except.map] at h
      injection h with hs
      rw [← hs]
      exact ⟨hA, hC⟩
  | moveFile a fid dest =>
    simp only [applyOp] at h
    have hpar : ∀ x, folderParentOf s' x = folderParentOf s x :=
      fun x => moveFile_parents h x
    exact ⟨acyclic_congr hpar hA, closed_congr hpar hC⟩
  | shareFile a fid tu =>
    simp only [applyOp] at h
    have hpar : ∀ x, folderParentOf s' x = folderParentOf s x :=
      fun x => shareFile_parents h x
    exact ⟨acyclic_congr hpar hA, closed_congr hpar hC⟩
  | createFolder a n pf newId =>
    cases hc : createFolder s a n pf newId with
    | error e => simp only [applyOp, hc, Except.map] at h; cases h
    | ok pr =>
      obtain ⟨s1, fo⟩ := pr
      simp only [applyOp, hc, Except.map] at h
      injection h with hs
      rw [← hs]
      exact createFolder_preserves hA hC hc
  | moveFolder a fid dest =>
    simp only [applyOp] at h
    exact moveFolder_preserves hA hC h
  | shareFolder a fid tu =>
    simp only [applyOp] at h
    have hpar : ∀ x, folderParentOf s' x = folderParentOf s x :=
      fun x => shareFolder_parents h x
    exact ⟨acyclic_congr hpar hA, closed_congr hpar hC⟩

theorem applyOps_preserves :
    ∀ (ops : List Op) (s s' : Store), Acyclic s → ClosedParents s →
      applyOps s ops = .ok s' → Acyclic s' ∧ ClosedParents s' := by
  intro ops
  induction ops with
  | nil =>
    intro s s' hA hC h
    simp only [applyOps] at h
    injection h with hs
    rw [← hs]
    exact ⟨hA, hC⟩
  | cons op rest ih =>
    intro s s' hA hC h
    simp only [applyOps] at h
    cases hop : applyOp s op with
    | error e => simp only [hop] at h; cases h
    | ok s1 =>
      simp only [hop] at h
      obtain ⟨hA1, hC1⟩ := applyOp_preserves hA hC hop
      exact ih s1 s' hA1 hC1 h

/-! The two rejection branches of the moveFolder guards. -/

theorem moveFolder_self_rejected {s : Store} {asUser folderId : String} {fo : Folder}
    (hfo : getFolder s folderId = some fo)
    (ha : hasFolderAccess s asUser folderId = true) :
    moveFolder s asUser folderId (some folderId) = .error .BAD_REQUEST := by
  simp only [moveFolder, hfo, if_pos ha, if_pos rfl]
  simp

theorem moveFolder_cycle_rejected {s : Store} {asUser folderId dest : String} {fo : Folder}
    {j : Nat}
    (hA : Acyclic s)
    (hfo : getFolder s folderId = some fo)
    (ha : hasFolderAccess s asUser folderId = true)
    (hne : dest ≠ folderId)
    (hchain : iterP s (j + 1) dest = some folderId) :
    moveFolder s asUser folderId (some dest) = .error .BAD_REQUEST := by
  have hR : Rooted s := acyclic_rooted hA
  have hcc : circularCheck s folderId (s.folders.length + 1) (getFolder s dest) = true :=
    circularCheck_complete s folderId (s.folders.length + 1) dest (hR dest) ⟨j, hchain⟩
  have hsne : some dest ≠ some folderId := by
    intro hc
    injection hc with hc2
    exact hne hc2
  simp only [moveFolder, hfo, if_pos ha, if_neg hsne, hcc, if_pos rfl]
  simp

/-! Claim C6: stores for the counterexample and the witness. -/

/-- store with a dangling parent pointer: folder `a` names the absent `b` as
its parent.  The parent relation has no cycle. -/
def sampleStoreI : Store :=
  { folders := [{ id := "a", parentFolder := some "b", users := ["u"] }] }

/-- the result of createFolder by `u` under parent `a` when the database hands
out the id `b`: the dangling pointer of `a` now closes into a 2-cycle. -/
def sampleStoreI1 : Store :=
  { folders := [{ id := "a", parentFolder := some "b", folders := ["b"], users := ["u"] },
                { id := "b", parentFolder := some "a", users := ["u"] }] }

/-- a two-folder store: root `a` with child `b`, both granted to `u`, with no
dangling parent pointer. -/
def sampleStoreK : Store :=
  { folders := [{ id := "a", users := ["u"] },
                { id := "b", parentFolder := some "a", users := ["u"] }] }

/-- `sampleStoreK` after createFolder by `u` under parent `a` with database id
`c`. -/
def sampleStoreK1 : Store :=
  { folders := [{ id := "a", folders := ["c"], users := ["u"] },
                { id := "b", parentFolder := some "a", users := ["u"] },
                { id := "c", parentFolder := some "a", users := ["u"] }] }

/-- C6, counterexample to the claim as stated: with no side condition on
parent pointers, acyclicity alone is not preserved.  From an acyclic store
whose only folder has a dangling parent pointer, one successful createFolder —
the database handing out precisely the dangling id — produces a store where
folder `a` is its own strict descendant. -/
theorem C6_counterexample :
    Acyclic sampleStoreI
  ∧ applyOps sampleStoreI [Op.createFolder "u" none (some "a") "b"] = .ok sampleStoreI1
  ∧ ¬ Acyclic sampleStoreI1 := by
  refine ⟨acyclic_of_rootedStore (by decide), by rfl, ?_⟩
  intro hA
  have e1 : parentRel sampleStoreI1 "a" "b" := rfl
  have e2 : parentRel sampleStoreI1 "b" "a" := rfl
  exact hA "a" (Relation.TransGen.head e1 (Relation.TransGen.single e2))

/-- C6 (amended): moveFolder rejects, with BAD_REQUEST and before any write, a
self-move and any move whose destination has the moved folder on its ancestor
chain; and starting from a store that is acyclic AND whose visible parent
pointers all name stored folders, no sequence of requests produces a folder
that is its own strict descendant (both conditions are preserved forever).
The closed-parents condition is necessary: `C6_counterexample` breaks the
invariant from an acyclic store with a dangling parent pointer. -/
theorem C6_forest_amended :
    (∀ (s : Store) (asUser folderId : String) (fo : Folder),
        getFolder s folderId = some fo → hasFolderAccess s asUser folderId = true →
        moveFolder s asUser folderId (some folderId) = .error .BAD_REQUEST)
  ∧ (∀ (s : Store) (asUser folderId dest : String) (fo : Folder) (j : Nat),
        Acyclic s → getFolder s folderId = some fo →
        hasFolderAccess s asUser folderId = true → dest ≠ folderId →
        iterP s (j + 1) dest = some folderId →
        moveFolder s asUser folderId (some dest) = .error .BAD_REQUEST)
  ∧ (∀ (s : Store) (ops : List Op) (s' : Store),
        Acyclic s → ClosedParents s → applyOps s ops = .ok s' →
        Acyclic s' ∧ ClosedParents s') := by
  refine ⟨?_, ?_, ?_⟩
  · intro s asUser folderId fo hfo ha
    exact moveFolder_self_rejected hfo ha
  · intro s asUser folderId dest fo j hA hfo ha hne hchain
    exact moveFolder_cycle_rejected hA hfo ha hne hchain
  · intro s ops s' hA hC h
    exact applyOps_preserves ops s s' hA hC h

/-- concrete run of the three parts of the amended C6: a self-move and a
move-into-own-child both answer BAD_REQUEST on `sampleStoreK`, and a
createFolder sequence from `sampleStoreK` keeps the forest invariants. -/
theorem C6_forest_amended_witness :
    moveFolder sampleStoreK "u" "a" (some "a") = .error .BAD_REQUEST
  ∧ moveFolder sampleStoreK "u" "a" (some "b") = .error .BAD_REQUEST
  ∧ (Acyclic sampleStoreK1 ∧ ClosedParents sampleStoreK1) :=
  ⟨C6_forest_amended.1 sampleStoreK "u" "a" { id := "a", users := ["u"] }
     (by decide) (by decide),
   C6_forest_amended.2.1 sampleStoreK "u" "a" "b" { id := "a", users := ["u"] } 0
     (acyclic_of_rootedStore (by decide)) (by decide) (by decide) (by decide) (by decide),
   C6_forest_amended.2.2 sampleStoreK [Op.createFolder "u" none (some "a") "c"] sampleStoreK1
     (acyclic_of_rootedStore (by decide)) (closedParents_of_bool (by decide)) (by rfl)⟩

/-! On the moveFolder control flow: the source runs the circular-reference
walk before the destination access check, but access descends ancestor
chains, so a destination with the moved folder on its chain is accessible to
anyone who can access the moved folder — the two orders answer every
satisfiable input identically. -/

theorem hasFolderAccess_descends {s : Store} {u dest folderId : String} {k : Nat}
    (hR : Rooted s) (hchain : iterP s k dest = some folderId)
    (ha : hasFolderAccess s u folderId = true) :
    hasFolderAccess s u dest = true := by
  rw [hasFolderAccess_iff_grant hR] at ha ⊢
  obtain ⟨j, y, hj, hy⟩ := ha
  refine ⟨k + j, y, ?_, hy⟩
  rw [iterP_add, hchain]
  exact hj

end Drive
